import Mathlib

/-!
Verification of pybam: pileup aggregation and the windowed cursor.

A shallow embedding of `src/pybam.cpp`.

* `CreatePileupTuple` is the per-position statistics computer.
* `PileupQueue` (`Visit`, `Clear`) is the result queue with its `StartPosition` watermark.
* `Pileup` (`Open`, `Jump`, `Next`) is the cursor.

C++ `int` values are embedded as `Int`: the development describes the executions in which no
signed arithmetic overflows (signed overflow has no defined behaviour in C++).  Exceptions are
embedded as `Except Error`; a stateful member function returns its outcome together with the
state of the object after the call, so the state left behind by a throwing call is explicit.

The `double` entropy (tuple slot 11) and the two literal `0` slots (10 and 12) of the returned
tuple do not influence control flow and are not part of `PileupTuple`; the entropy is embedded
on its own, read as a real number, as `entropyOf`.
-/

namespace Pybam

/-! ## Data model -/

/-- Modelled from the spec: the declaration of bamtools' `BamAlignment` is not part of the
sources; this records the members `CreatePileupTuple` reads.  `QueryBases` and `Qualities` are
the two `std::string`s (for `Qualities` each character is given by its integer value, which is
what the code adds up), `IsReverseStrand` is the result of the member function of that name. -/
structure BamAlignment where
  QueryBases : List Char
  Qualities : List Int
  MapQuality : Int
  Length : Int
  IsReverseStrand : Bool

/-- Modelled from the spec: the declaration of bamtools' `PileupAlignment` is not part of the
sources; one observation, with the members `CreatePileupTuple` reads. -/
structure PileupAlignment where
  Alignment : BamAlignment
  IsCurrentDeletion : Bool
  PositionInAlignment : Int

/-- Modelled from the spec: the declaration of bamtools' `PileupPosition` is not part of the
sources; the observation set of one (0-based) position. -/
structure PileupPosition where
  RefId : Int
  Position : Int
  PileupAlignments : List PileupAlignment

/-- The exceptions the code can raise: `std::out_of_range` from `std::string::at`, and the four
`runtime_error`s thrown by the source, named after their messages. -/
inductive Error where
  | out_of_range
  | unrecognized_base (base : Char)
  | invalid_ref_name (refName : String)
  | unable_to_open_bam_file (bamFilename : String)
  | unable_to_open_index (bamFilename : String)
  deriving DecidableEq, Repr

/-- The local array `int ntData[5][6]`, rows `A, C, G, T, Total`. -/
abbrev NtData := Nat → Nat → Int

/-- The initial value of the array, `{{0}}`. -/
def NtData.zero : NtData := fun _ _ => 0

/-- The assignment `ntData[i][j] += v`. -/
def NtData.add (ntData : NtData) (i j : Nat) (v : Int) : NtData :=
  fun a b => if a = i ∧ b = j then ntData a b + v else ntData a b

/-- The value of `python::make_tuple(...)` returned by `CreatePileupTuple`: slots 0 and 1, the
five channel tuples (slots 2 to 6, as the array they are read from), and slots 7, 8 and 9. -/
structure PileupTuple where
  RefId : Int
  position : Int
  ntData : NtData
  majorBaseIdx : Nat
  minorBaseIdx : Nat
  ambiguous : Int

/-! ## CreatePileupTuple -/

/-- The bounds-checked `std::string::at` with an `int` argument: a negative argument converts
to a huge `size_t` and is out of range. -/
def atIndex {α : Type} (s : List α) (i : Int) : Option α :=
  if 0 ≤ i then s[i.toNat]? else none

/-- The C function `toupper` on a base character. -/
def toupper (c : Char) : Char := c.toUpper

/-- The `switch (base)` of `CreatePileupTuple`; `none` is the `default:` branch. -/
def baseIdxOf (base : Char) : Option Nat :=
  if base = 'A' then some 0
  else if base = 'C' then some 1
  else if base = 'G' then some 2
  else if base = 'T' then some 3
  else none

/-- The variables the first loop of `CreatePileupTuple` updates. -/
structure Tally where
  ntData : NtData
  ambiguous : Int

/-- One iteration of the loop over `pileupData.PileupAlignments` (lines 35 to 79). -/
def tallyAlignment (acc : Tally) (pa : PileupAlignment) : Except Error Tally :=
  let ba := pa.Alignment
  if pa.IsCurrentDeletion then .ok acc
  else
    match atIndex ba.QueryBases pa.PositionInAlignment with
    | none => .error .out_of_range
    | some c =>
      let base := toupper c
      if base = 'N' then .ok { acc with ambiguous := acc.ambiguous + 1 }
      else
        match baseIdxOf base with
        | none => .error (.unrecognized_base base)
        | some baseIdx =>
          match atIndex ba.Qualities pa.PositionInAlignment with
          | none => .error .out_of_range
          | some q =>
            let distance : Int :=
              if ba.IsReverseStrand then ba.Length - pa.PositionInAlignment - 1
              else pa.PositionInAlignment
            let direction : Int := if ba.IsReverseStrand then 1 else 0
            let ntData := acc.ntData
            let ntData := ntData.add baseIdx 0 1
            let ntData := ntData.add 4 0 1
            let ntData := ntData.add baseIdx 1 q
            let ntData := ntData.add 4 1 q
            let ntData := ntData.add baseIdx 2 ba.MapQuality
            let ntData := ntData.add 4 2 ba.MapQuality
            let ntData := ntData.add baseIdx 3 distance
            let ntData := ntData.add 4 3 distance
            let ntData := ntData.add baseIdx 3 direction
            let ntData := ntData.add 4 3 direction
            .ok { acc with ntData := ntData }

/-- The loop over `pileupData.PileupAlignments`; an exception leaves the loop. -/
def tallyLoop : List PileupAlignment → Tally → Except Error Tally
  | [], acc => .ok acc
  | pa :: rest, acc =>
    match tallyAlignment acc pa with
    | .error e => .error e
    | .ok acc1 => tallyLoop rest acc1

/-- The loop of lines 84 to 90 over the given values of `baseIdx`, from the current
`majorBaseIdx`. -/
def majorLoop (ntData : NtData) : List Nat → Nat → Nat
  | [], majorBaseIdx => majorBaseIdx
  | baseIdx :: rest, majorBaseIdx =>
    majorLoop ntData rest
      (if ntData baseIdx 0 > ntData majorBaseIdx 0 then baseIdx else majorBaseIdx)

/-- The loop of lines 94 to 100 over the given values of `baseIdx`: the assignment in its body
is to `majorBaseIdx`, and `minorBaseIdx` is only read.  The result is the final
`majorBaseIdx`. -/
def minorLoop (ntData : NtData) (minorBaseIdx : Nat) : List Nat → Nat → Nat
  | [], majorBaseIdx => majorBaseIdx
  | baseIdx :: rest, majorBaseIdx =>
    minorLoop ntData minorBaseIdx rest
      (if ntData baseIdx 0 > ntData minorBaseIdx 0 ∧ baseIdx ≠ majorBaseIdx then baseIdx
       else majorBaseIdx)

/-- The function `CreatePileupTuple` (lines 28 to 129). -/
def CreatePileupTuple (pileupData : PileupPosition) : Except Error PileupTuple :=
  match tallyLoop pileupData.PileupAlignments ⟨NtData.zero, 0⟩ with
  | .error e => .error e
  | .ok acc =>
    let ntData := acc.ntData
    let majorBaseIdx := majorLoop ntData [0, 1, 2, 3] 0
    let minorBaseIdx := (majorBaseIdx + 1) % 4
    let majorBaseIdx := minorLoop ntData minorBaseIdx [0, 1, 2, 3] majorBaseIdx
    let position := pileupData.Position + 1
    .ok ⟨pileupData.RefId, position, ntData, majorBaseIdx, minorBaseIdx, acc.ambiguous⟩

/-! ## Reading an observation -/

/-- The uppercased base call of an observation, when its offset is inside the read. -/
def baseOf (pa : PileupAlignment) : Option Char :=
  (atIndex pa.Alignment.QueryBases pa.PositionInAlignment).map toupper

/-- The base quality of an observation (`0` when the offset is outside `Qualities`). -/
def qualityOf (pa : PileupAlignment) : Int :=
  (atIndex pa.Alignment.Qualities pa.PositionInAlignment).getD 0

/-- The combined distance and direction value `s(o)` of an observation. -/
def signalOf (pa : PileupAlignment) : Int :=
  if pa.Alignment.IsReverseStrand then
    (pa.Alignment.Length - pa.PositionInAlignment - 1) + 1
  else pa.PositionInAlignment

/-- The observation is not a deletion and its uppercased base is `b`. -/
def hasBase (b : Char) (pa : PileupAlignment) : Bool :=
  !pa.IsCurrentDeletion && baseOf pa == some b

/-- The observation is not a deletion and its uppercased base is one of `A, C, G, T`. -/
def isCounted (pa : PileupAlignment) : Bool :=
  hasBase 'A' pa || hasBase 'C' pa || hasBase 'G' pa || hasBase 'T' pa

/-- The observation is not a deletion and its uppercased base is not `N`. -/
def notDeletedNotN (pa : PileupAlignment) : Bool :=
  !pa.IsCurrentDeletion && baseOf pa != some 'N'

/-- The letter of a base channel, in the order `A, C, G, T`. -/
def channelBase (i : Nat) : Char :=
  match i with
  | 0 => 'A'
  | 1 => 'C'
  | 2 => 'G'
  | _ => 'T'

/-- A forward (or reverse) read of the given bases, every quality `q`, observed at `offset`. -/
def mkObs (bases : List Char) (q mapq offset : Int) (reverse deleted : Bool) :
    PileupAlignment :=
  ⟨⟨bases, bases.map (fun _ => q), mapq, bases.length, reverse⟩, deleted, offset⟩

/-! ## PileupQueue -/

/-- The struct `PileupQueue`: the `std::queue` (front first) and the watermark. -/
structure PileupQueue where
  Pileups : List PileupTuple
  StartPosition : Int

/-- The constructor `PileupQueue() : StartPosition(-1)`. -/
def PileupQueue.init : PileupQueue := ⟨[], -1⟩

/-- The member `PileupQueue::Visit`: the outcome and the queue after the call.  The argument of
`Pileups.push` is evaluated first, so a throwing `CreatePileupTuple` leaves the queue as it
was. -/
def PileupQueue.Visit (self : PileupQueue) (pileupData : PileupPosition) :
    Except Error Unit × PileupQueue :=
  if pileupData.Position < self.StartPosition then (.ok (), self)
  else
    match CreatePileupTuple pileupData with
    | .error e => (.error e, self)
    | .ok tpl => (.ok (), { Pileups := self.Pileups ++ [tpl], StartPosition := -1 })

/-- The member `PileupQueue::Clear`. -/
def PileupQueue.Clear (self : PileupQueue) : PileupQueue :=
  { self with Pileups := [] }

/-! ## The bamtools collaborators

`BamReader` and `PileupEngine` are library classes outside the sources.  They are taken as
parameters: any types `Al` of alignments, `F` of reader handles and `E` of engine states, and
any functions on them. -/

/-- Modelled from the spec: the state of the bamtools `BamReader`, whose code is not part of
the sources: an arbitrary handle, and the finite sequence of alignments that
`GetNextAlignment` still returns, in order, before it returns `false`. -/
structure BamReader (Al F : Type) where
  handle : F
  pending : List Al

/-- Modelled from the spec: the state of the bamtools `PileupEngine`, whose code is not part of
the sources: an arbitrary state, and the history `visited` of the observation sets it has
passed to its visitor so far, oldest first. -/
structure PileupEngine (E : Type) where
  state : E
  visited : List PileupPosition

/-- Modelled from the spec: the behaviour of the bamtools member functions the cursor calls.
`AddAlignment` and `Flush` yield the visitor invocations the engine makes during the call, each
with the engine state in which it is made (the state the engine is left in if the visitor
throws there), and the engine state when the call returns. -/
structure Bamtools (Al F E : Type) where
  Open : BamReader Al F → String → Bool × BamReader Al F
  LocateIndex : BamReader Al F → Bool × BamReader Al F
  GetReferenceData : BamReader Al F → List String
  GetReferenceID : BamReader Al F → String → Int
  Jump : BamReader Al F → Int → Int → BamReader Al F
  AddAlignment : E → Al → List (E × PileupPosition) × E
  Flush : E → List (E × PileupPosition) × E

section Cursor

variable {Al F E : Type}

/-- The engine invoking its registered visitor, `m_PileupQueue`, on each finalized position in
turn; an exception thrown by the visitor leaves the engine call. -/
def applyVisitors (done : E) :
    List (E × PileupPosition) → List PileupPosition → PileupQueue →
      Except Error Unit × PileupEngine E × PileupQueue
  | [], visited, q => (.ok (), ⟨done, visited⟩, q)
  | (e, pileupData) :: rest, visited, q =>
    match q.Visit pileupData with
    | (.error err, q1) => (.error err, ⟨e, visited ++ [pileupData]⟩, q1)
    | (.ok _, q1) => applyVisitors done rest (visited ++ [pileupData]) q1

/-- The call `m_PileupEngine.AddAlignment(al)`. -/
def engineAddAlignment (bt : Bamtools Al F E) (eng : PileupEngine E) (q : PileupQueue)
    (al : Al) : Except Error Unit × PileupEngine E × PileupQueue :=
  applyVisitors (bt.AddAlignment eng.state al).2 (bt.AddAlignment eng.state al).1 eng.visited q

/-- The call `m_PileupEngine.Flush()`. -/
def engineFlush (bt : Bamtools Al F E) (eng : PileupEngine E) (q : PileupQueue) :
    Except Error Unit × PileupEngine E × PileupQueue :=
  applyVisitors (bt.Flush eng.state).2 (bt.Flush eng.state).1 eng.visited q

/-! ## Pileup -/

/-- The class `Pileup`. -/
structure Pileup (Al F E : Type) where
  RefNames : List String
  m_BamReader : BamReader Al F
  m_PileupEngine : PileupEngine E
  m_PileupQueue : PileupQueue

/-- The constructor `Pileup()`, for a reader and an engine in their initial states. -/
def Pileup.init (reader : BamReader Al F) (engine : E) : Pileup Al F E :=
  ⟨[], reader, ⟨engine, []⟩, PileupQueue.init⟩

/-- The member `Pileup::Open`. -/
def Pileup.Open (bt : Bamtools Al F E) (self : Pileup Al F E) (bamFilename : String) :
    Except Error Unit × Pileup Al F E :=
  match bt.Open self.m_BamReader bamFilename with
  | (false, rd) =>
    (.error (.unable_to_open_bam_file bamFilename), { self with m_BamReader := rd })
  | (true, rd) =>
    match bt.LocateIndex rd with
    | (false, rd) =>
      (.error (.unable_to_open_index bamFilename), { self with m_BamReader := rd })
    | (true, rd) =>
      match engineFlush bt self.m_PileupEngine self.m_PileupQueue with
      | (.error e, eng, q) => (.error e, ⟨self.RefNames, rd, eng, q⟩)
      | (.ok _, eng, q) => (.ok (), ⟨bt.GetReferenceData rd, rd, eng, q.Clear⟩)

/-- The `while (m_BamReader.GetNextAlignment(al))` loop of `Pileup::Jump` (lines 210 to 230),
over the alignments the reader still returns.  The result holds the alignments left unread. -/
def jumpLoop (bt : Bamtools Al F E) (refId position : Int) :
    List Al → PileupEngine E → PileupQueue →
      Except Error Unit × List Al × PileupEngine E × PileupQueue
  | [], eng, q => (.ok (), [], eng, q)
  | al :: rest, eng, q =>
    match engineAddAlignment bt eng q al with
    | (.error e, eng, q) => (.error e, rest, eng, q)
    | (.ok _, eng, q) =>
      if q.Pileups.isEmpty then jumpLoop bt refId position rest eng q
      else
        let q : PileupQueue :=
          { q with Pileups := (q.Pileups.dropWhile
              (fun front => decide (front.RefId = refId ∧ front.position < position))) }
        match q.Pileups with
        | [] => jumpLoop bt refId position rest eng q
        | front :: _ =>
          if front.RefId ≠ refId ∨ front.position ≥ position then (.ok (), rest, eng, q)
          else jumpLoop bt refId position rest eng q

/-- The member `Pileup::Jump`. -/
def Pileup.Jump (bt : Bamtools Al F E) (self : Pileup Al F E) (refName : String)
    (position : Int) : Except Error Unit × Pileup Al F E :=
  let position := position - 1
  let refId := bt.GetReferenceID self.m_BamReader refName
  if refId < 0 then (.error (.invalid_ref_name refName), self)
  else
    match engineFlush bt self.m_PileupEngine self.m_PileupQueue with
    | (.error e, eng, q) => (.error e, { self with m_PileupEngine := eng, m_PileupQueue := q })
    | (.ok _, eng, q) =>
      let q := q.Clear
      let rd := bt.Jump self.m_BamReader refId position
      let q : PileupQueue := { q with StartPosition := position }
      match jumpLoop bt refId position rd.pending eng q with
      | (r, rest, eng, q) => (r, ⟨self.RefNames, ⟨rd.handle, rest⟩, eng, q⟩)

/-- The `while (m_BamReader.GetNextAlignment(al))` loop of `Pileup::Next` (lines 236 to 244):
an alignment is read and added before the queue is looked at. -/
def nextLoop (bt : Bamtools Al F E) :
    List Al → PileupEngine E → PileupQueue →
      Except Error Unit × List Al × PileupEngine E × PileupQueue
  | [], eng, q => (.ok (), [], eng, q)
  | al :: rest, eng, q =>
    match engineAddAlignment bt eng q al with
    | (.error e, eng, q) => (.error e, rest, eng, q)
    | (.ok _, eng, q) =>
      if !q.Pileups.isEmpty then (.ok (), rest, eng, q)
      else nextLoop bt rest eng q

/-- The member `Pileup::Next`; `none` is the Python `None` of `python::object()`. -/
def Pileup.Next (bt : Bamtools Al F E) (self : Pileup Al F E) :
    Except Error (Option PileupTuple) × Pileup Al F E :=
  match nextLoop bt self.m_BamReader.pending self.m_PileupEngine self.m_PileupQueue with
  | (.error e, rest, eng, q) =>
    (.error e, ⟨self.RefNames, ⟨self.m_BamReader.handle, rest⟩, eng, q⟩)
  | (.ok _, rest, eng, q) =>
    match q.Pileups with
    | [] => (.ok none, ⟨self.RefNames, ⟨self.m_BamReader.handle, rest⟩, eng, q⟩)
    | tpl :: others =>
      (.ok (some tpl),
        ⟨self.RefNames, ⟨self.m_BamReader.handle, rest⟩, eng, { q with Pileups := others }⟩)

/-- A run of `n` consecutive calls of `Next`: the outcome of each call, in order, and the state
after the last one. -/
def NextRun (bt : Bamtools Al F E) :
    Nat → Pileup Al F E → List (Except Error (Option PileupTuple)) × Pileup Al F E
  | 0, self => ([], self)
  | n + 1, self =>
    ((Pileup.Next bt self).1 :: (NextRun bt n (Pileup.Next bt self).2).1,
      (NextRun bt n (Pileup.Next bt self).2).2)

/-- The records among the outcomes of a run of calls. -/
def returnedRecords : List (Except Error (Option PileupTuple)) → List PileupTuple
  | [] => []
  | .ok (some tpl) :: rest => tpl :: returnedRecords rest
  | _ :: rest => returnedRecords rest

end Cursor

/-- The order of the engine on `(RefId, Position)`: reference first, then position. -/
def PileupPosition.le (a b : PileupPosition) : Prop :=
  a.RefId < b.RefId ∨ (a.RefId = b.RefId ∧ a.Position ≤ b.Position)

/-- The same order on the records: slot 0 first, then slot 1. -/
def PileupTuple.le (a b : PileupTuple) : Prop :=
  a.RefId < b.RefId ∨ (a.RefId = b.RefId ∧ a.position ≤ b.position)

instance (a b : PileupPosition) : Decidable (a.le b) := by
  unfold PileupPosition.le; infer_instance

instance (a b : PileupTuple) : Decidable (a.le b) := by
  unfold PileupTuple.le; infer_instance

/-! ## Channel contributions -/

/-- The metric `j` of one counted observation. -/
def metricOf (pa : PileupAlignment) (j : Nat) : Int :=
  match j with
  | 0 => 1
  | 1 => qualityOf pa
  | 2 => pa.Alignment.MapQuality
  | 3 => signalOf pa
  | _ => 0

/-- The observations that channel `i` aggregates. -/
def inChannel (i : Nat) (pa : PileupAlignment) : Bool :=
  if i < 4 then hasBase (channelBase i) pa else if i = 4 then isCounted pa else false

/-- What one observation adds to `ntData[i][j]`. -/
def contribution (i j : Nat) (pa : PileupAlignment) : Int :=
  if inChannel i pa then metricOf pa j else 0

/-- The ten `+=` of one counted observation, for base index `k` and quality `q`. -/
def tallied (nt : NtData) (pa : PileupAlignment) (k : Nat) (q : Int) : NtData :=
  let distance : Int :=
    if pa.Alignment.IsReverseStrand then pa.Alignment.Length - pa.PositionInAlignment - 1
    else pa.PositionInAlignment
  let direction : Int := if pa.Alignment.IsReverseStrand then 1 else 0
  (((((((((nt.add k 0 1).add 4 0 1).add k 1 q).add 4 1 q).add k 2 pa.Alignment.MapQuality).add
    4 2 pa.Alignment.MapQuality).add k 3 distance).add 4 3 distance).add k 3 direction).add
    4 3 direction

/-- The observation is not a deletion and its uppercased base is none of `A, C, G, T, N`. -/
def isUnrecognized (pa : PileupAlignment) : Bool :=
  !pa.IsCurrentDeletion &&
    match baseOf pa with
    | none => false
    | some c => c != 'A' && c != 'C' && c != 'G' && c != 'T' && c != 'N'

/-- The offset of the observation is an index into both `QueryBases` and `Qualities`. -/
def validOffset (pa : PileupAlignment) : Prop :=
  0 ≤ pa.PositionInAlignment ∧
    pa.PositionInAlignment < (pa.Alignment.QueryBases.length : Int) ∧
    pa.PositionInAlignment < (pa.Alignment.Qualities.length : Int)

/-- The base at the offset of the observation is `N` or `n`. -/
def readsN (pa : PileupAlignment) : Prop :=
  atIndex pa.Alignment.QueryBases pa.PositionInAlignment = some 'N' ∨
    atIndex pa.Alignment.QueryBases pa.PositionInAlignment = some 'n'

/-- The scenario of the specification: `A` forward at offset 0, `A` reverse at offset 9 of a
read of length 10, `T` forward at offset 5, at position 41 of reference 0. -/
def scenario : PileupPosition :=
  ⟨0, 41,
    [mkObs "AAAAAAAAAA".toList 30 60 0 false false,
     mkObs "AAAAAAAAAA".toList 20 50 9 true false,
     mkObs "TTTTTTTTTT".toList 10 40 5 false false]⟩

/-- The slots of a record that hold integers: slots 0 and 1, the five channel tuples, and
slots 7, 8, 9. -/
def PileupTuple.slots (t : PileupTuple) : Int × Int × List (List Int) × Nat × Nat × Int :=
  (t.RefId, t.position, (List.range 5).map (fun i => (List.range 6).map (t.ntData i)),
    t.majorBaseIdx, t.minorBaseIdx, t.ambiguous)

/-- A position whose only observation is one `N` base. -/
def singleN : PileupPosition := ⟨0, 7, [mkObs ['N'] 30 60 0 false false]⟩

/-- A position with a lower-case `n`, a deletion and an `N`. -/
def mixedN : PileupPosition :=
  ⟨0, 7, [mkObs ['a', 'n'] 30 60 1 false false, mkObs ['A', 'C'] 30 60 0 false true,
    mkObs ['N'] 30 60 0 true false]⟩

/-- A position with an `A` and a non-deleted `M` (an IUPAC code bamtools can decode). -/
def withM : PileupPosition :=
  ⟨0, 7, [mkObs ['A', 'C'] 30 60 0 false false, mkObs ['G', 'M'] 30 60 1 false false]⟩

instance (pa : PileupAlignment) : Decidable (validOffset pa) := by
  unfold validOffset; infer_instance

/-! ## A scripted reader and engine

A concrete instance of the collaborators, used to evaluate the cursor on examples. -/

/-- An alignment of a scripted file: the positions the engine finalizes when the alignment is
added, and the positions it still holds afterwards (a `Flush` emits them). -/
structure ScriptedAlignment where
  finalized : List PileupPosition
  held : List PileupPosition

/-- A scripted indexed file: its reference names, whether its index is found, its alignments
from the start, and the alignments that follow a seek to `(refId, position)`. -/
structure ScriptedFile where
  RefNames : List String
  hasIndex : Bool
  alignments : List ScriptedAlignment
  seek : Int → Int → List ScriptedAlignment

/-- The scripted collaborators over the files `files`.  The reader handle is the open file;
the engine state is the list of positions a `Flush` would emit. -/
def scripted (files : String → Option ScriptedFile) :
    Bamtools ScriptedAlignment (Option ScriptedFile) (List PileupPosition) where
  Open := fun _ bamFilename =>
    match files bamFilename with
    | none => (false, ⟨none, []⟩)
    | some f => (true, ⟨some f, f.alignments⟩)
  LocateIndex := fun rd =>
    match rd.handle with
    | none => (false, rd)
    | some f => (f.hasIndex, rd)
  GetReferenceData := fun rd =>
    match rd.handle with
    | none => []
    | some f => f.RefNames
  GetReferenceID := fun rd refName =>
    match rd.handle with
    | none => -1
    | some f => if refName ∈ f.RefNames then (f.RefNames.indexOf refName : Int) else -1
  Jump := fun rd refId position =>
    match rd.handle with
    | none => rd
    | some f => ⟨some f, f.seek refId position⟩
  AddAlignment := fun _ al => (al.finalized.map (fun d => (al.held, d)), al.held)
  Flush := fun e => (e.map (fun d => ([], d)), [])

/-- The observation set of one forward `A` at the given position. -/
def oneA (refId position : Int) : PileupPosition :=
  ⟨refId, position, [mkObs ['A'] 30 60 0 false false]⟩

/-- A scripted alignment finalizing the given positions of reference `refId`, holding none. -/
def finalizing (refId : Int) (positions : List Int) : ScriptedAlignment :=
  ⟨positions.map (oneA refId), []⟩

/-- A file with the references `chr1` and `chr2`.  Reads cover the 0-based positions 97 to 102
of `chr1` and 5 to 6 of `chr2`; a seek into `chr1` at or before position 102 lands on the read
that starts at 97, a seek elsewhere finds the reads of `chr2` (for `chr1`) or nothing. -/
def fileA : ScriptedFile where
  RefNames := ["chr1", "chr2"]
  hasIndex := true
  alignments := [finalizing 0 [97, 98], finalizing 0 [99, 100], finalizing 0 [101, 102],
    finalizing 1 [5, 6]]
  seek := fun refId position =>
    if refId = 0 ∧ position ≤ 102 then
      [finalizing 0 [97, 98], finalizing 0 [99, 100], finalizing 0 [101, 102],
        finalizing 1 [5, 6]]
    else if refId = 0 then [finalizing 1 [5, 6]]
    else []

/-- A second file, with one reference and reads covering the 0-based positions 10 to 13. -/
def fileB : ScriptedFile where
  RefNames := ["chrM"]
  hasIndex := true
  alignments := [finalizing 0 [10, 11], finalizing 0 [12, 13]]
  seek := fun _ _ => []

/-- The scripted file system: `a.bam` and `b.bam`. -/
def files (bamFilename : String) : Option ScriptedFile :=
  if bamFilename = "a.bam" then some fileA
  else if bamFilename = "b.bam" then some fileB
  else none

/-- A freshly constructed cursor over the scripted collaborators. -/
def fresh : Pileup ScriptedAlignment (Option ScriptedFile) (List PileupPosition) :=
  Pileup.init ⟨none, []⟩ []

/-- Slots 0 and 1 of the record a call of `Next` returned: `none` when the call threw,
`some none` when it returned `None`. -/
def returnedKey (r : Except Error (Option PileupTuple)) : Option (Option (Int × Int)) :=
  r.toOption.map (Option.map (fun t => (t.RefId, t.position)))

/-- The queue during a seek to the 1-based position `p`: still empty with the watermark armed
at `p - 1`, or headed by a record at position `p` or later. -/
def Sought (p : Int) (q : PileupQueue) : Prop :=
  (q.Pileups = [] ∧ q.StartPosition = p - 1) ∨
    ∃ t rest, q.Pileups = t :: rest ∧ p ≤ t.position

/-- The scripted cursor after `Open("a.bam")`. -/
def afterOpenA : Pileup ScriptedAlignment (Option ScriptedFile) (List PileupPosition) :=
  (Pileup.Open (scripted files) fresh "a.bam").2

/-- The scripted cursor after `Open("a.bam")` and `Jump("chr1", 100)`. -/
def afterJump100 : Pileup ScriptedAlignment (Option ScriptedFile) (List PileupPosition) :=
  (Pileup.Jump (scripted files) afterOpenA "chr1" 100).2

/-- The value a call returned, `None` also standing for a call that threw. -/
def returnedValue (r : Except Error (Option PileupTuple)) : Option PileupTuple :=
  match r with
  | .ok v => v
  | .error _ => none

/-- The scripted cursor after `Open("a.bam")` and `Jump("chr2", 200)`: no read follows the
seek, so no position is visited, the queue is empty and the watermark is armed at 199. -/
def afterJumpPastEnd : Pileup ScriptedAlignment (Option ScriptedFile) (List PileupPosition) :=
  (Pileup.Jump (scripted files) afterOpenA "chr2" 200).2

/-- The record computed for an observation set, when the computer succeeds. -/
def tupleOf (d : PileupPosition) : Option PileupTuple :=
  (CreatePileupTuple d).toOption

/-- First in, first out: from the visit history `visited` and the queue `q`, the visits `vs`
were made, a subsequence of their records was pushed in order, and the records `out` were taken
from the front, leaving the history `visited1` and the queue `q1`. -/
def Fifo (visited : List PileupPosition) (q : PileupQueue) (out : List PileupTuple)
    (visited1 : List PileupPosition) (q1 : PileupQueue) : Prop :=
  ∃ vs pushed, visited1 = visited ++ vs ∧ List.Sublist pushed (vs.filterMap tupleOf) ∧
    out ++ q1.Pileups = q.Pileups ++ pushed

/-! ## Major and minor base -/

/-- The index `m` is the first one, in the order `A, C, G, T`, at which the maximal count of
the four base channels is attained. -/
def IsFirstMax (ntData : NtData) (m : Nat) : Prop :=
  m < 4 ∧ (∀ j, j < 4 → ntData j 0 ≤ ntData m 0) ∧ (∀ j, j < m → ntData j 0 < ntData m 0)

/-- A position with three `A`, two `C` and one `G`, all forward at offset 0. -/
def threeTwoOne : PileupPosition :=
  ⟨0, 7, [mkObs ['A'] 30 60 0 false false, mkObs ['A'] 30 60 0 false false,
    mkObs ['A'] 30 60 0 false false, mkObs ['C'] 30 60 0 false false,
    mkObs ['C'] 30 60 0 false false, mkObs ['G'] 30 60 0 false false]⟩

/-- A position with two `G` and one `T`, all forward at offset 0. -/
def twoGoneT : PileupPosition :=
  ⟨0, 7, [mkObs ['G'] 30 60 0 false false, mkObs ['G'] 30 60 0 false false,
    mkObs ['T'] 30 60 0 false false]⟩

/-- A queue with no record and the watermark armed at the 0-based position 99. -/
def armedAt99 : PileupQueue := ⟨[], 99⟩

/-- A queue holding the record of position 99 of reference 0, with the watermark armed at 5. -/
def armedAt5 : PileupQueue := ⟨(armedAt99.Visit (oneA 0 99)).2.Pileups, 5⟩

/-! ## Pulling until the queue is non-empty -/

section Pulling

variable {Al F E : Type}

/-- The loop that pulls alignments until the queue first becomes non-empty or the source is
exhausted: each alignment read is added to the engine, then the queue is looked at. -/
def pullUntilNonEmpty (bt : Bamtools Al F E) :
    List Al → PileupEngine E → PileupQueue →
      Except Error Unit × List Al × PileupEngine E × PileupQueue
  | [], eng, q => (.ok (), [], eng, q)
  | al :: rest, eng, q =>
    match engineAddAlignment bt eng q al with
    | (.error e, eng, q) => (.error e, rest, eng, q)
    | (.ok _, eng, q) =>
      if q.Pileups.isEmpty then pullUntilNonEmpty bt rest eng q
      else (.ok (), rest, eng, q)

/-- The member `Pileup::Jump` with its pull loop replaced by `pullUntilNonEmpty`: no entry is
removed and no position is compared. -/
def Pileup.JumpByPulling (bt : Bamtools Al F E) (self : Pileup Al F E) (refName : String)
    (position : Int) : Except Error Unit × Pileup Al F E :=
  let position := position - 1
  let refId := bt.GetReferenceID self.m_BamReader refName
  if refId < 0 then (.error (.invalid_ref_name refName), self)
  else
    match engineFlush bt self.m_PileupEngine self.m_PileupQueue with
    | (.error e, eng, q) => (.error e, { self with m_PileupEngine := eng, m_PileupQueue := q })
    | (.ok _, eng, q) =>
      let q := q.Clear
      let rd := bt.Jump self.m_BamReader refId position
      let q : PileupQueue := { q with StartPosition := position }
      match pullUntilNonEmpty bt rd.pending eng q with
      | (r, rest, eng, q) => (r, ⟨self.RefNames, ⟨rd.handle, rest⟩, eng, q⟩)

end Pulling

/-- The scripted cursor after `Open("a.bam")` and `Jump("chr1", 200)`: the reads of `chr1` end
before the target, and the read that follows the seek finalizes the 0-based positions 5 and 6
of `chr2`. -/
def afterJump200 : Pileup ScriptedAlignment (Option ScriptedFile) (List PileupPosition) :=
  (Pileup.Jump (scripted files) afterOpenA "chr1" 200).2

/-- The reference and the 0-based position of an observation set. -/
def PileupPosition.key (d : PileupPosition) : Int × Int := (d.RefId, d.Position)

/-- Slots 0 and 1 of a record. -/
def PileupTuple.key (t : PileupTuple) : Int × Int := (t.RefId, t.position)

/-! ## Entropy

The entropy of lines 102 to 112 is computed in `double`; here it is read as a real number. -/

/-- The loop of lines 105 to 112 over the given values of `baseIdx`, in real arithmetic, from
the current value of `entropy`. -/
noncomputable def entropyLoop (ntData : NtData) (depth : ℝ) : List Nat → ℝ → ℝ
  | [], entropy => entropy
  | baseIdx :: rest, entropy =>
    entropyLoop ntData depth rest
      (if (ntData baseIdx 0 : ℝ) / depth ≠ 0 then
        entropy - Real.log ((ntData baseIdx 0 : ℝ) / depth) * ((ntData baseIdx 0 : ℝ) / depth)
      else entropy)

/-- The entropy `CreatePileupTuple` puts in slot 11 of its tuple, read as a real number:
`depth` is the size of the whole observation set and `ntData` the array the first loop
filled. -/
noncomputable def entropyOf (pileupData : PileupPosition) (ntData : NtData) : ℝ :=
  entropyLoop ntData (pileupData.PileupAlignments.length : ℝ) [0, 1, 2, 3] 0

/-- A position with one `A` and one `N`, both forward at offset 0. -/
def oneAoneN : PileupPosition :=
  ⟨0, 7, [mkObs ['A'] 30 60 0 false false, mkObs ['N'] 30 60 0 false false]⟩

/-- A position with two `A`, both forward at offset 0. -/
def twoA : PileupPosition :=
  ⟨0, 7, [mkObs ['A'] 30 60 0 false false, mkObs ['A'] 30 60 0 false false]⟩

/-- A position with one `A`, one `C`, one `G` and one `T`, all forward at offset 0. -/
def oneOfEach : PileupPosition :=
  ⟨0, 7, [mkObs ['A'] 30 60 0 false false, mkObs ['C'] 30 60 0 false false,
    mkObs ['G'] 30 60 0 false false, mkObs ['T'] 30 60 0 false false]⟩

/-! ## The statistics computer -/

theorem NtData.add_apply (nt : NtData) (i j : Nat) (v : Int) (a b : Nat) :
    nt.add i j v a b = if a = i ∧ b = j then nt a b + v else nt a b := rfl

theorem baseIdxOf_some {base : Char} {k : Nat} (h : baseIdxOf base = some k) :
    k < 4 ∧ base = channelBase k := by
  unfold baseIdxOf at h
  split_ifs at h with hA hC hG hT <;> simp at h <;> subst h <;> simp [channelBase, *]

theorem channelBase_inj {i k : Nat} (hi : i < 4) (hk : k < 4)
    (h : channelBase i = channelBase k) : i = k := by
  interval_cases i <;> interval_cases k <;> first | rfl | (exact absurd h (by decide))

theorem channelBase_ne_N (k : Nat) : channelBase k ≠ 'N' := by
  unfold channelBase; split <;> decide

theorem inChannel_of_base {pa : PileupAlignment} {k : Nat} (hk : k < 4)
    (hd : pa.IsCurrentDeletion = false) (hb : baseOf pa = some (channelBase k)) (i : Nat) :
    inChannel i pa = decide (i = k ∨ i = 4) := by
  unfold inChannel
  by_cases hi : i < 4
  · have h4 : i ≠ 4 := by omega
    simp only [hi, if_true, hasBase, hd, hb, Bool.not_false, Bool.true_and, h4, or_false]
    by_cases hik : i = k
    · subst hik; simp
    · have : channelBase k ≠ channelBase i := fun h => hik (channelBase_inj hi hk h.symm)
      simp [hik, this]
  · have hik : i ≠ k := by omega
    simp only [hi, if_false, hik, false_or]
    by_cases h4 : i = 4
    · simp only [h4, if_true, isCounted, hasBase, hd, hb]
      interval_cases k <;> simp [channelBase]
    · simp [h4]

theorem tallyAlignment_cases {acc acc1 : Tally} {pa : PileupAlignment}
    (h : tallyAlignment acc pa = .ok acc1) :
    (pa.IsCurrentDeletion = true ∧ acc1 = acc) ∨
    (pa.IsCurrentDeletion = false ∧ baseOf pa = some 'N' ∧ acc1.ntData = acc.ntData ∧
      acc1.ambiguous = acc.ambiguous + 1) ∨
    (pa.IsCurrentDeletion = false ∧ ∃ k q, k < 4 ∧ baseOf pa = some (channelBase k) ∧
      atIndex pa.Alignment.Qualities pa.PositionInAlignment = some q ∧
      acc1.ambiguous = acc.ambiguous ∧ acc1.ntData = tallied acc.ntData pa k q) := by
  unfold tallyAlignment at h
  by_cases hd : pa.IsCurrentDeletion = true
  · simp only [hd, if_true] at h
    exact Or.inl ⟨hd, by injection h with h; exact h.symm⟩
  · have hd : pa.IsCurrentDeletion = false := by simpa using hd
    simp only [hd, Bool.false_eq_true, if_false] at h
    cases hb : atIndex pa.Alignment.QueryBases pa.PositionInAlignment with
    | none => simp [hb] at h
    | some c =>
      simp only [hb] at h
      by_cases hN : toupper c = 'N'
      · simp only [hN, if_true] at h
        injection h with h
        subst h
        exact Or.inr (Or.inl ⟨hd, by simp [baseOf, hb, hN], rfl, rfl⟩)
      · simp only [hN, if_false] at h
        cases hk : baseIdxOf (toupper c) with
        | none => simp [hk] at h
        | some k =>
          simp only [hk] at h
          cases hq : atIndex pa.Alignment.Qualities pa.PositionInAlignment with
          | none => simp [hq] at h
          | some q =>
            simp only [hq] at h
            injection h with h
            subst h
            obtain ⟨hk4, hc⟩ := baseIdxOf_some hk
            exact Or.inr (Or.inr ⟨hd, k, q, hk4, by simp [baseOf, hb, hc], rfl, rfl, rfl⟩)

theorem tallied_apply (nt : NtData) (pa : PileupAlignment) {k : Nat} (hk : k < 4) {q : Int}
    (hq : atIndex pa.Alignment.Qualities pa.PositionInAlignment = some q) (i j : Nat) :
    tallied nt pa k q i j = nt i j + (if i = k ∨ i = 4 then metricOf pa j else 0) := by
  have hk4 : k ≠ 4 := by omega
  have hq1 : qualityOf pa = q := by simp [qualityOf, hq]
  simp only [tallied, NtData.add_apply]
  by_cases hik : i = k
  · subst hik
    rcases j with _ | _ | _ | _ | j
    all_goals simp [metricOf, hk4, hq1, signalOf]
    all_goals (split_ifs <;> omega)
  · by_cases hi4 : i = 4
    · subst hi4
      rcases j with _ | _ | _ | _ | j
      all_goals simp [metricOf, hik, hq1, signalOf]
      all_goals (split_ifs <;> omega)
    · simp [hik, hi4]

theorem tallyAlignment_ntData {acc acc1 : Tally} {pa : PileupAlignment}
    (h : tallyAlignment acc pa = .ok acc1) (i j : Nat) :
    acc1.ntData i j = acc.ntData i j + contribution i j pa := by
  rcases tallyAlignment_cases h with ⟨hd, rfl⟩ | ⟨hd, hb, hnt, -⟩ | ⟨hd, k, q, hk, hb, hq, -, hnt⟩
  · have : inChannel i pa = false := by
      unfold inChannel isCounted hasBase; simp [hd]
    simp [contribution, this]
  · have : inChannel i pa = false := by
      unfold inChannel isCounted hasBase
      simp only [hd, hb, Bool.not_false, Bool.true_and]
      have := channelBase_ne_N i
      split_ifs
      all_goals simp
      all_goals first | decide | (intro h; exact this h.symm)
    simp [contribution, this, hnt]
  · rw [hnt, tallied_apply _ _ hk hq, contribution, inChannel_of_base hk hd hb]
    simp

theorem tallyLoop_ntData :
    ∀ (obs : List PileupAlignment) (acc acc1 : Tally), tallyLoop obs acc = .ok acc1 →
      ∀ i j, acc1.ntData i j = acc.ntData i j + (obs.map (contribution i j)).sum
  | [], acc, acc1, h, i, j => by
    simp only [tallyLoop] at h
    injection h with h
    subst h
    simp
  | pa :: rest, acc, acc1, h, i, j => by
    simp only [tallyLoop] at h
    cases hs : tallyAlignment acc pa with
    | error e => simp [hs] at h
    | ok acc2 =>
      simp only [hs] at h
      rw [tallyLoop_ntData rest acc2 acc1 h i j, tallyAlignment_ntData hs i j]
      simp only [List.map_cons, List.sum_cons]
      ring

theorem tallyLoop_ambiguous :
    ∀ (obs : List PileupAlignment) (acc acc1 : Tally), tallyLoop obs acc = .ok acc1 →
      acc1.ambiguous = acc.ambiguous + (obs.countP (hasBase 'N') : Nat)
  | [], acc, acc1, h => by
    simp only [tallyLoop] at h
    injection h with h
    subst h
    simp
  | pa :: rest, acc, acc1, h => by
    simp only [tallyLoop] at h
    cases hs : tallyAlignment acc pa with
    | error e => simp [hs] at h
    | ok acc2 =>
      simp only [hs] at h
      rw [tallyLoop_ambiguous rest acc2 acc1 h, List.countP_cons]
      rcases tallyAlignment_cases hs with ⟨hd, rfl⟩ | ⟨hd, hb, -, ha⟩ | ⟨hd, k, q, hk, hb, -, ha, -⟩
      · simp [hasBase, hd]
      · simp [hasBase, hd, hb, ha]; ring
      · have : channelBase k ≠ 'N' := channelBase_ne_N k
        simp [hasBase, hd, hb, ha, this]

/-- On a successful run every observation is a deletion, an `N`, or one of `A, C, G, T`. -/
theorem tallyLoop_ok_mem :
    ∀ (obs : List PileupAlignment) (acc acc1 : Tally), tallyLoop obs acc = .ok acc1 →
      ∀ pa ∈ obs, pa.IsCurrentDeletion = true ∨ baseOf pa = some 'N' ∨
        (pa.IsCurrentDeletion = false ∧ ∃ k q, k < 4 ∧ baseOf pa = some (channelBase k) ∧
          atIndex pa.Alignment.Qualities pa.PositionInAlignment = some q)
  | [], _, _, _, pa, hpa => by simp at hpa
  | pb :: rest, acc, acc1, h, pa, hpa => by
    simp only [tallyLoop] at h
    cases hs : tallyAlignment acc pb with
    | error e => simp [hs] at h
    | ok acc2 =>
      simp only [hs] at h
      rcases List.mem_cons.mp hpa with rfl | hmem
      · rcases tallyAlignment_cases hs with ⟨hd, -⟩ | ⟨-, hb, -, -⟩ | ⟨hd, k, q, hk, hb, hq, -, -⟩
        · exact Or.inl hd
        · exact Or.inr (Or.inl hb)
        · exact Or.inr (Or.inr ⟨hd, k, q, hk, hb, hq⟩)
      · exact tallyLoop_ok_mem rest acc2 acc1 h pa hmem

theorem CreatePileupTuple_ok {pd : PileupPosition} {t : PileupTuple}
    (h : CreatePileupTuple pd = .ok t) :
    ∃ acc, tallyLoop pd.PileupAlignments ⟨NtData.zero, 0⟩ = .ok acc ∧
      t.RefId = pd.RefId ∧ t.position = pd.Position + 1 ∧
      t.ntData = acc.ntData ∧ t.ambiguous = acc.ambiguous ∧
      t.minorBaseIdx = (majorLoop t.ntData [0, 1, 2, 3] 0 + 1) % 4 ∧
      t.majorBaseIdx =
        minorLoop t.ntData t.minorBaseIdx [0, 1, 2, 3] (majorLoop t.ntData [0, 1, 2, 3] 0) := by
  unfold CreatePileupTuple at h
  cases hl : tallyLoop pd.PileupAlignments ⟨NtData.zero, 0⟩ with
  | error e => simp [hl] at h
  | ok acc =>
    simp only [hl] at h
    injection h with h
    subst h
    exact ⟨acc, rfl, rfl, rfl, rfl, rfl, rfl, rfl⟩

theorem CreatePileupTuple_ntData {pd : PileupPosition} {t : PileupTuple}
    (h : CreatePileupTuple pd = .ok t) (i j : Nat) :
    t.ntData i j = (pd.PileupAlignments.map (contribution i j)).sum := by
  obtain ⟨acc, hl, -, -, hnt, -⟩ := CreatePileupTuple_ok h
  rw [hnt, tallyLoop_ntData _ _ _ hl i j]
  simp [NtData.zero]

theorem sum_map_ite {α : Type} (p : α → Bool) (f : α → Int) (l : List α) :
    (l.map (fun x => if p x then f x else 0)).sum = ((l.filter p).map f).sum := by
  induction l with
  | nil => simp
  | cons a l ih =>
    by_cases hp : p a = true
    · simp [List.filter_cons, hp, ih]
    · simp [List.filter_cons, hp, ih]

theorem sum_map_indicator {α : Type} (p : α → Bool) (l : List α) :
    (l.map (fun x => if p x then (1 : Int) else 0)).sum = (l.countP p : Nat) := by
  induction l with
  | nil => simp
  | cons a l ih =>
    by_cases hp : p a = true
    · simp [List.countP_cons, hp, ih]; ring
    · simp [List.countP_cons, hp, ih]

theorem contribution_total (pa : PileupAlignment) :
    contribution 4 0 pa =
      contribution 0 0 pa + contribution 1 0 pa + contribution 2 0 pa + contribution 3 0 pa := by
  simp only [contribution, inChannel, isCounted, hasBase, channelBase, metricOf]
  cases pa.IsCurrentDeletion
  · cases hb : baseOf pa with
    | none => simp
    | some c =>
      by_cases hA : c = 'A'
      · subst hA; simp
      · by_cases hC : c = 'C'
        · subst hC; simp
        · by_cases hG : c = 'G'
          · subst hG; simp
          · by_cases hT : c = 'T'
            · subst hT; simp
            · simp [hA, hC, hG, hT]
  · simp

theorem sum_contribution_total (obs : List PileupAlignment) :
    (obs.map (contribution 4 0)).sum =
      (obs.map (contribution 0 0)).sum + (obs.map (contribution 1 0)).sum +
        (obs.map (contribution 2 0)).sum + (obs.map (contribution 3 0)).sum := by
  induction obs with
  | nil => simp
  | cons pa rest ih =>
    simp only [List.map_cons, List.sum_cons, ih, contribution_total pa]
    ring

/-- C1. Whenever `CreatePileupTuple` succeeds, the count of the Total channel, `ntData[4][0]`,
is the sum of the counts of the channels `A`, `C`, `G`, `T`, and it is the number of
observations that are not deletions and whose uppercased base is not `N`. -/
theorem total_count_is_sum_and_number_counted (pd : PileupPosition) (t : PileupTuple)
    (h : CreatePileupTuple pd = .ok t) :
    t.ntData 4 0 = t.ntData 0 0 + t.ntData 1 0 + t.ntData 2 0 + t.ntData 3 0 ∧
      t.ntData 4 0 = ((pd.PileupAlignments.countP notDeletedNotN : Nat) : Int) := by
  refine ⟨?_, ?_⟩
  · simp only [CreatePileupTuple_ntData h]
    exact sum_contribution_total _
  · obtain ⟨acc, hl, -⟩ := CreatePileupTuple_ok h
    have hmem := tallyLoop_ok_mem _ _ _ hl
    have hcongr : pd.PileupAlignments.countP notDeletedNotN =
        pd.PileupAlignments.countP isCounted := by
      apply List.countP_congr
      intro pa hpa
      rcases hmem pa hpa with hd | hb | ⟨hd, k, q, hk, hb, -⟩
      · simp [notDeletedNotN, isCounted, hasBase, hd]
      · simp [notDeletedNotN, isCounted, hasBase, hb]
      · have hN : channelBase k ≠ 'N' := channelBase_ne_N k
        have h4 := inChannel_of_base hk hd hb 4
        simp only [inChannel] at h4
        simp at h4
        simp [notDeletedNotN, hd, hb, hN, h4]
    rw [CreatePileupTuple_ntData h, hcongr, ← sum_map_indicator]
    congr 1

theorem CreatePileupTuple_ntData_filter {pd : PileupPosition} {t : PileupTuple}
    (h : CreatePileupTuple pd = .ok t) (i j : Nat) :
    t.ntData i j =
      ((pd.PileupAlignments.filter (inChannel i)).map (fun pa => metricOf pa j)).sum := by
  rw [CreatePileupTuple_ntData h, ← sum_map_ite]
  rfl

theorem sum_map_one {α : Type} (l : List α) :
    (l.map (fun _ => (1 : Int))).sum = ((l.length : Nat) : Int) := by
  induction l with
  | nil => simp
  | cons a l ih => simp [ih]; ring

theorem sum_map_zero {α : Type} (l : List α) : (l.map (fun _ => (0 : Int))).sum = 0 := by
  induction l with
  | nil => simp
  | cons a l ih => simp [ih]

theorem inChannel_base {i : Nat} (hi : i < 4) : inChannel i = hasBase (channelBase i) := by
  funext pa
  simp [inChannel, hi]

theorem inChannel_total : inChannel 4 = isCounted := by
  funext pa
  simp [inChannel]

/-- C9. Whenever `CreatePileupTuple` succeeds, the four metrics of each base channel are the
number, the sum of base qualities, the sum of mapping qualities and the sum of `s(o)` over the
non-deleted observations with that uppercased base; the Total channel holds the same sums over
the non-deleted observations whose base is `A`, `C`, `G` or `T`; slots 4 and 5 of every channel
are 0. -/
theorem channel_metrics_are_sums (pd : PileupPosition) (t : PileupTuple)
    (h : CreatePileupTuple pd = .ok t) :
    (∀ i, i < 4 →
      t.ntData i 0 =
        (((pd.PileupAlignments.filter (hasBase (channelBase i))).length : Nat) : Int) ∧
      t.ntData i 1 =
        ((pd.PileupAlignments.filter (hasBase (channelBase i))).map qualityOf).sum ∧
      t.ntData i 2 =
        ((pd.PileupAlignments.filter (hasBase (channelBase i))).map
          (fun pa => pa.Alignment.MapQuality)).sum ∧
      t.ntData i 3 =
        ((pd.PileupAlignments.filter (hasBase (channelBase i))).map signalOf).sum) ∧
    (t.ntData 4 0 = (((pd.PileupAlignments.filter isCounted).length : Nat) : Int) ∧
      t.ntData 4 1 = ((pd.PileupAlignments.filter isCounted).map qualityOf).sum ∧
      t.ntData 4 2 =
        ((pd.PileupAlignments.filter isCounted).map (fun pa => pa.Alignment.MapQuality)).sum ∧
      t.ntData 4 3 = ((pd.PileupAlignments.filter isCounted).map signalOf).sum) ∧
    (∀ i, t.ntData i 4 = 0 ∧ t.ntData i 5 = 0) := by
  refine ⟨fun i hi => ?_, ?_, fun i => ?_⟩
  · simp only [CreatePileupTuple_ntData_filter h, inChannel_base hi, metricOf]
    exact ⟨sum_map_one _, trivial, trivial, trivial⟩
  · simp only [CreatePileupTuple_ntData_filter h, inChannel_total, metricOf]
    exact ⟨sum_map_one _, trivial, trivial, trivial⟩
  · simp only [CreatePileupTuple_ntData_filter h, metricOf]
    exact ⟨sum_map_zero _, sum_map_zero _⟩

/-- Witness of C9 at the scenario of the specification: the computer succeeds there, and the
position signal of channel `A` is `0 + ((10 - 9 - 1) + 1) = 1`, that of Total is `1 + 5`. -/
theorem channel_metrics_are_sums_witness :
    ∃ t, CreatePileupTuple scenario = .ok t ∧
      t.ntData 0 3 = ((scenario.PileupAlignments.filter (hasBase 'A')).map signalOf).sum ∧
      t.ntData 4 3 = ((scenario.PileupAlignments.filter isCounted).map signalOf).sum ∧
      t.ntData 0 3 = 1 ∧ t.ntData 4 3 = 6 :=
  ⟨_, rfl, ((channel_metrics_are_sums scenario _ rfl).1 0 (by decide)).2.2.2,
    (channel_metrics_are_sums scenario _ rfl).2.1.2.2.2, by decide, by decide⟩

/-- Witness of C1 at the scenario of the specification: Total is `2 + 0 + 0 + 1 = 3`. -/
theorem total_count_is_sum_and_number_counted_witness :
    ∃ t, CreatePileupTuple scenario = .ok t ∧
      (t.ntData 4 0 = t.ntData 0 0 + t.ntData 1 0 + t.ntData 2 0 + t.ntData 3 0 ∧
        t.ntData 4 0 = ((scenario.PileupAlignments.countP notDeletedNotN : Nat) : Int)) ∧
      t.ntData 4 0 = 3 :=
  ⟨_, rfl, total_count_is_sum_and_number_counted scenario _ rfl, by decide⟩

/-- C2, the code at the scenario of the specification: the counts are `A = 2`, `C = 0`,
`G = 0`, `T = 1`, and the returned `majorBaseIdx` is 3 (`T`), a channel whose count is smaller
than that of `A`. -/
theorem major_base_at_scenario :
    (CreatePileupTuple scenario).toOption.map
        (fun t => (t.majorBaseIdx, t.ntData 0 0, t.ntData 1 0, t.ntData 2 0, t.ntData 3 0)) =
      some (3, 2, 0, 0, 1) := by
  decide

theorem majorLoop_lt (nt : NtData) :
    ∀ (l : List Nat) (m : Nat), (∀ b ∈ l, b < 4) → m < 4 → majorLoop nt l m < 4
  | [], m, _, hm => by simpa [majorLoop] using hm
  | b :: rest, m, hl, hm => by
    simp only [majorLoop]
    apply majorLoop_lt nt rest _ (fun x hx => hl x (List.mem_cons_of_mem _ hx))
    split_ifs
    · exact hl b (List.mem_cons_self _ _)
    · exact hm

theorem minorLoop_lt_ne (nt : NtData) (d : Nat) :
    ∀ (l : List Nat) (m : Nat), (∀ b ∈ l, b < 4) → m < 4 → m ≠ d →
      minorLoop nt d l m < 4 ∧ minorLoop nt d l m ≠ d
  | [], m, _, hm, hd => by simpa [minorLoop] using ⟨hm, hd⟩
  | b :: rest, m, hl, hm, hd => by
    simp only [minorLoop]
    by_cases hc : nt b 0 > nt d 0 ∧ b ≠ m
    · rw [if_pos hc]
      apply minorLoop_lt_ne nt d rest _ (fun x hx => hl x (List.mem_cons_of_mem _ hx))
        (hl b (List.mem_cons_self _ _))
      rintro rfl
      exact lt_irrefl _ hc.1
    · rw [if_neg hc]
      exact minorLoop_lt_ne nt d rest _ (fun x hx => hl x (List.mem_cons_of_mem _ hx)) hm hd

/-- C3. Whenever `CreatePileupTuple` succeeds, the returned `minorBaseIdx` differs from the
returned `majorBaseIdx`, and both are indices in `0..3`. -/
theorem minor_differs_from_major (pd : PileupPosition) (t : PileupTuple)
    (h : CreatePileupTuple pd = .ok t) :
    t.minorBaseIdx ≠ t.majorBaseIdx ∧ t.majorBaseIdx < 4 ∧ t.minorBaseIdx < 4 := by
  obtain ⟨acc, -, -, -, -, -, hminor, hmajor⟩ := CreatePileupTuple_ok h
  have hl : ∀ b ∈ [0, 1, 2, 3], b < 4 := by decide
  have hm := majorLoop_lt t.ntData [0, 1, 2, 3] 0 hl (by decide)
  have hd : t.minorBaseIdx < 4 := by rw [hminor]; exact Nat.mod_lt _ (by decide)
  have hne : majorLoop t.ntData [0, 1, 2, 3] 0 ≠ t.minorBaseIdx := by
    rw [hminor]; omega
  have := minorLoop_lt_ne t.ntData t.minorBaseIdx [0, 1, 2, 3] _ hl hm hne
  rw [← hmajor] at this
  exact ⟨fun e => this.2 e.symm, this.1, hd⟩

/-- Witness of C3 at the scenario of the specification: the indices returned are 3 and 1. -/
theorem minor_differs_from_major_witness :
    ∃ t, CreatePileupTuple scenario = .ok t ∧
      (t.minorBaseIdx ≠ t.majorBaseIdx ∧ t.majorBaseIdx < 4 ∧ t.minorBaseIdx < 4) ∧
      t.majorBaseIdx = 3 ∧ t.minorBaseIdx = 1 :=
  ⟨_, rfl, minor_differs_from_major scenario _ rfl, by decide, by decide⟩

theorem baseOf_of_readsN {pa : PileupAlignment} (h : readsN pa) : baseOf pa = some 'N' := by
  rcases h with h | h <;> simp only [baseOf, h, Option.map_some'] <;> decide

theorem tallyAlignment_N (acc : Tally) {pa : PileupAlignment}
    (hd : pa.IsCurrentDeletion = false) (hb : baseOf pa = some 'N') :
    tallyAlignment acc pa = .ok ⟨acc.ntData, acc.ambiguous + 1⟩ := by
  unfold tallyAlignment
  simp only [hd, Bool.false_eq_true, if_false]
  unfold baseOf at hb
  cases hc : atIndex pa.Alignment.QueryBases pa.PositionInAlignment with
  | none => simp [hc] at hb
  | some c =>
    simp only [hc, Option.map_some', Option.some.injEq] at hb
    simp [hb]

theorem tallyAlignment_deleted (acc : Tally) {pa : PileupAlignment}
    (hd : pa.IsCurrentDeletion = true) : tallyAlignment acc pa = .ok acc := by
  unfold tallyAlignment
  simp [hd]

theorem tallyLoop_all_N :
    ∀ (obs : List PileupAlignment) (acc : Tally),
      (∀ pa ∈ obs, pa.IsCurrentDeletion = false → readsN pa) →
      tallyLoop obs acc =
        .ok ⟨acc.ntData,
          acc.ambiguous + ((obs.countP (fun pa => !pa.IsCurrentDeletion) : Nat) : Int)⟩
  | [], acc, _ => by simp [tallyLoop]
  | pa :: rest, acc, h => by
    have hrest : ∀ pb ∈ rest, pb.IsCurrentDeletion = false → readsN pb :=
      fun pb hpb => h pb (List.mem_cons_of_mem _ hpb)
    simp only [tallyLoop]
    cases hd : pa.IsCurrentDeletion with
    | true =>
      rw [tallyAlignment_deleted acc hd]
      simp only [tallyLoop_all_N rest acc hrest, List.countP_cons, hd]
      simp
    | false =>
      have hN := baseOf_of_readsN (h pa (List.mem_cons_self _ _) hd)
      rw [tallyAlignment_N acc hd hN]
      simp only [tallyLoop_all_N rest _ hrest, List.countP_cons, hd]
      simp
      ring

/-- C10. When every non-deleted observation has base `N` or `n`, `CreatePileupTuple` succeeds:
`ambiguous` is the number of non-deleted observations, every metric of every channel is 0,
`majorBaseIdx` is 0 (`A`) and `minorBaseIdx` is 1. -/
theorem only_N_observations (pd : PileupPosition)
    (h : ∀ pa ∈ pd.PileupAlignments, pa.IsCurrentDeletion = false → readsN pa) :
    ∃ t, CreatePileupTuple pd = .ok t ∧
      t.ambiguous =
        ((pd.PileupAlignments.countP (fun pa => !pa.IsCurrentDeletion) : Nat) : Int) ∧
      (∀ i j, t.ntData i j = 0) ∧ t.majorBaseIdx = 0 ∧ t.minorBaseIdx = 1 := by
  have h1 : majorLoop NtData.zero [0, 1, 2, 3] 0 = 0 := by decide
  have h2 : minorLoop NtData.zero 1 [0, 1, 2, 3] 0 = 0 := by decide
  unfold CreatePileupTuple
  rw [tallyLoop_all_N _ _ h]
  refine ⟨_, rfl, ?_, fun i j => rfl, ?_, ?_⟩
  · simp
  · show minorLoop NtData.zero ((majorLoop NtData.zero [0, 1, 2, 3] 0 + 1) % 4) [0, 1, 2, 3]
      (majorLoop NtData.zero [0, 1, 2, 3] 0) = 0
    rw [h1]
    exact h2
  · show (majorLoop NtData.zero [0, 1, 2, 3] 0 + 1) % 4 = 1
    rw [h1]

/-- Witness of C10 at the set holding a single `N` observation, where `ambiguous` is 1, and at
a set with an `n`, a deletion and an `N`, where it is 2. -/
theorem only_N_observations_witness :
    (∃ t, CreatePileupTuple singleN = .ok t ∧
      t.ambiguous =
        ((singleN.PileupAlignments.countP (fun pa => !pa.IsCurrentDeletion) : Nat) : Int) ∧
      (∀ i j, t.ntData i j = 0) ∧ t.majorBaseIdx = 0 ∧ t.minorBaseIdx = 1) ∧
    (CreatePileupTuple singleN).toOption.map PileupTuple.slots =
      some (0, 8, List.replicate 5 (List.replicate 6 0), 0, 1, 1) ∧
    (CreatePileupTuple mixedN).toOption.map PileupTuple.slots =
      some (0, 8, List.replicate 5 (List.replicate 6 0), 0, 1, 2) :=
  ⟨only_N_observations singleN (fun pa hpa _ => by
      rw [List.mem_singleton.mp hpa]
      exact Or.inl (by decide)),
    by decide, by decide⟩

theorem atIndex_of_lt {α : Type} {s : List α} {i : Int} (h0 : 0 ≤ i)
    (h1 : i < (s.length : Int)) : ∃ x, atIndex s i = some x := by
  have hlt : i.toNat < s.length := by omega
  exact ⟨s[i.toNat], by simp [atIndex, h0, List.getElem?_eq_getElem hlt]⟩

theorem tallyAlignment_valid (acc : Tally) {pa : PileupAlignment} (hv : validOffset pa) :
    (isUnrecognized pa = false → ∃ acc1, tallyAlignment acc pa = .ok acc1) ∧
    (isUnrecognized pa = true →
      ∃ c, tallyAlignment acc pa = .error (.unrecognized_base c) ∧
        c ≠ 'A' ∧ c ≠ 'C' ∧ c ≠ 'G' ∧ c ≠ 'T' ∧ c ≠ 'N') := by
  obtain ⟨c, hc⟩ := atIndex_of_lt hv.1 hv.2.1
  obtain ⟨q, hq⟩ := atIndex_of_lt hv.1 hv.2.2
  unfold isUnrecognized baseOf tallyAlignment
  simp only [hc, hq, Option.map_some']
  cases pa.IsCurrentDeletion with
  | true => simp
  | false =>
    simp only [Bool.not_false, Bool.true_and, Bool.false_eq_true, if_false]
    by_cases hN : toupper c = 'N'
    · simp [hN]
    · by_cases hA : toupper c = 'A'
      · simp [hA, baseIdxOf]
      · by_cases hC : toupper c = 'C'
        · simp [hC, baseIdxOf]
        · by_cases hG : toupper c = 'G'
          · simp [hG, baseIdxOf]
          · by_cases hT : toupper c = 'T'
            · simp [hT, baseIdxOf]
            · simp [hN, hA, hC, hG, hT, baseIdxOf]

theorem tallyLoop_valid :
    ∀ (obs : List PileupAlignment) (acc : Tally), (∀ pa ∈ obs, validOffset pa) →
      ((∀ pa ∈ obs, isUnrecognized pa = false) → ∃ acc1, tallyLoop obs acc = .ok acc1) ∧
      ((∃ pa ∈ obs, isUnrecognized pa = true) →
        ∃ c, tallyLoop obs acc = .error (.unrecognized_base c) ∧
          c ≠ 'A' ∧ c ≠ 'C' ∧ c ≠ 'G' ∧ c ≠ 'T' ∧ c ≠ 'N')
  | [], acc, _ => ⟨fun _ => ⟨acc, rfl⟩, fun ⟨pa, hpa, _⟩ => by simp at hpa⟩
  | pa :: rest, acc, hv => by
    have hvr : ∀ pb ∈ rest, validOffset pb := fun pb hpb => hv pb (List.mem_cons_of_mem _ hpb)
    have hstep := tallyAlignment_valid acc (hv pa (List.mem_cons_self _ _))
    cases hu : isUnrecognized pa with
    | true =>
      obtain ⟨c, hc, hne⟩ := hstep.2 hu
      refine ⟨fun hall => ?_, fun _ => ⟨c, by simp [tallyLoop, hc], hne⟩⟩
      have := hall pa (List.mem_cons_self _ _)
      rw [hu] at this
      exact absurd this (by decide)
    | false =>
      obtain ⟨acc1, hok⟩ := hstep.1 hu
      have ih := tallyLoop_valid rest acc1 hvr
      refine ⟨fun hall => ?_, fun hex => ?_⟩
      · simp only [tallyLoop, hok]
        exact ih.1 (fun pb hpb => hall pb (List.mem_cons_of_mem _ hpb))
      · simp only [tallyLoop, hok]
        obtain ⟨pb, hpb, hbad⟩ := hex
        rcases List.mem_cons.mp hpb with rfl | hmem
        · rw [hu] at hbad
          exact absurd hbad (by decide)
        · exact ih.2 ⟨pb, hmem, hbad⟩

theorem CreatePileupTuple_error {pd : PileupPosition} {e : Error} :
    CreatePileupTuple pd = .error e ↔
      tallyLoop pd.PileupAlignments ⟨NtData.zero, 0⟩ = .error e := by
  unfold CreatePileupTuple
  cases tallyLoop pd.PileupAlignments ⟨NtData.zero, 0⟩ with
  | error e1 => simp
  | ok acc => simp

/-- C6. When every offset is an index into the bases and the qualities of its read,
`CreatePileupTuple` fails exactly when some non-deleted observation has a base whose uppercase
form is none of `A, C, G, T, N`, and its only failure is the unrecognized-base error, raised
for such a base.  `N` bases and deletions are not failures: on success `ambiguous` is the
number of non-deleted observations whose uppercased base is `N`. -/
theorem fails_iff_unrecognized_base (pd : PileupPosition)
    (hv : ∀ pa ∈ pd.PileupAlignments, validOffset pa) :
    ((∃ e, CreatePileupTuple pd = .error e) ↔
      ∃ pa ∈ pd.PileupAlignments, isUnrecognized pa = true) ∧
    (∀ e, CreatePileupTuple pd = .error e →
      ∃ base, e = .unrecognized_base base ∧
        base ≠ 'A' ∧ base ≠ 'C' ∧ base ≠ 'G' ∧ base ≠ 'T' ∧ base ≠ 'N') ∧
    (∀ t, CreatePileupTuple pd = .ok t →
      t.ambiguous = ((pd.PileupAlignments.countP (hasBase 'N') : Nat) : Int)) := by
  have hloop := tallyLoop_valid pd.PileupAlignments ⟨NtData.zero, 0⟩ hv
  have hdich : (∃ pa ∈ pd.PileupAlignments, isUnrecognized pa = true) ∨
      ∀ pa ∈ pd.PileupAlignments, isUnrecognized pa = false := by
    by_cases hex : ∃ pa ∈ pd.PileupAlignments, isUnrecognized pa = true
    · exact Or.inl hex
    · refine Or.inr (fun pa hpa => ?_)
      cases hu : isUnrecognized pa with
      | true => exact absurd ⟨pa, hpa, hu⟩ hex
      | false => rfl
  refine ⟨⟨fun ⟨e, he⟩ => ?_, fun hex => ?_⟩, fun e he => ?_, fun t ht => ?_⟩
  · rcases hdich with hex | hall
    · exact hex
    · obtain ⟨acc1, hok⟩ := hloop.1 hall
      rw [CreatePileupTuple_error, hok] at he
      exact absurd he (by simp)
  · obtain ⟨c, hc, -⟩ := hloop.2 hex
    exact ⟨_, CreatePileupTuple_error.mpr hc⟩
  · rcases hdich with hex | hall
    · obtain ⟨c, hc, hne⟩ := hloop.2 hex
      rw [CreatePileupTuple_error, hc] at he
      injection he with he
      exact ⟨c, he.symm, hne⟩
    · obtain ⟨acc1, hok⟩ := hloop.1 hall
      rw [CreatePileupTuple_error, hok] at he
      exact absurd he (by simp)
  · obtain ⟨acc, hl, -, -, -, ha, -⟩ := CreatePileupTuple_ok ht
    rw [ha, tallyLoop_ambiguous _ _ _ hl]
    simp

/-- Witness of C6: in `withM` every offset is valid and the non-deleted `M` makes the computer
fail with the unrecognized-base error for `M`; in `mixedN` every offset is valid, no base is
unrecognized, and the computer succeeds with `ambiguous = 2`. -/
theorem fails_iff_unrecognized_base_witness :
    (∀ pa ∈ withM.PileupAlignments, validOffset pa) ∧
    (∃ pa ∈ withM.PileupAlignments, isUnrecognized pa = true) ∧
    CreatePileupTuple withM = .error (.unrecognized_base 'M') ∧
    (∀ pa ∈ mixedN.PileupAlignments, validOffset pa) ∧
    ¬ (∃ e, CreatePileupTuple mixedN = .error e) ∧
    (CreatePileupTuple mixedN).toOption.map PileupTuple.ambiguous = some 2 :=
  ⟨by decide, ((fails_iff_unrecognized_base withM (by decide)).1).mp ⟨_, rfl⟩, rfl, by decide,
    fun hex => by
      obtain ⟨pa, hpa, hbad⟩ := ((fails_iff_unrecognized_base mixedN (by decide)).1).mp hex
      revert pa
      decide,
    by decide⟩

/-! ## The queue and the cursor -/

section CursorProofs

variable {Al F E : Type}

theorem applyVisitors_inv (I : PileupQueue → Prop)
    (hI : ∀ (q : PileupQueue) (d : PileupPosition), I q → I (q.Visit d).2) (done : E) :
    ∀ (calls : List (E × PileupPosition)) (visited : List PileupPosition) (q : PileupQueue),
      I q → I (applyVisitors done calls visited q).2.2
  | [], _, _, hq => by simpa [applyVisitors] using hq
  | (e, d) :: rest, visited, q, hq => by
    have h1 := hI q d hq
    simp only [applyVisitors]
    rcases hv : q.Visit d with ⟨r, q1⟩
    rw [hv] at h1
    cases r with
    | error err => simpa using h1
    | ok u => exact applyVisitors_inv I hI done rest _ q1 h1

theorem engineAddAlignment_inv (I : PileupQueue → Prop)
    (hI : ∀ (q : PileupQueue) (d : PileupPosition), I q → I (q.Visit d).2)
    (bt : Bamtools Al F E) (eng : PileupEngine E) (q : PileupQueue) (al : Al) (hq : I q) :
    I (engineAddAlignment bt eng q al).2.2 :=
  applyVisitors_inv I hI _ _ _ _ hq

theorem engineFlush_inv (I : PileupQueue → Prop)
    (hI : ∀ (q : PileupQueue) (d : PileupPosition), I q → I (q.Visit d).2)
    (bt : Bamtools Al F E) (eng : PileupEngine E) (q : PileupQueue) (hq : I q) :
    I (engineFlush bt eng q).2.2 :=
  applyVisitors_inv I hI _ _ _ _ hq

theorem Visit_sought (p : Int) (q : PileupQueue) (d : PileupPosition) (hq : Sought p q) :
    Sought p (q.Visit d).2 := by
  unfold PileupQueue.Visit
  by_cases hlt : d.Position < q.StartPosition
  · simpa [hlt] using hq
  · simp only [hlt, if_false]
    cases hc : CreatePileupTuple d with
    | error e => simpa using hq
    | ok tpl =>
      obtain ⟨-, -, -, hpos, -⟩ := CreatePileupTuple_ok hc
      rcases hq with ⟨hnil, hstart⟩ | ⟨t, rest, hcons, hp⟩
      · refine Or.inr ⟨tpl, [], by simp [hnil], ?_⟩
        rw [hpos]
        omega
      · exact Or.inr ⟨t, rest ++ [tpl], by simp [hcons], hp⟩

theorem Visit_head (t : PileupTuple) (q : PileupQueue) (d : PileupPosition)
    (hq : ∃ rest, q.Pileups = t :: rest) : ∃ rest, (q.Visit d).2.Pileups = t :: rest := by
  obtain ⟨rest, hcons⟩ := hq
  unfold PileupQueue.Visit
  by_cases hlt : d.Position < q.StartPosition
  · exact ⟨rest, by simp [hlt, hcons]⟩
  · simp only [hlt, if_false]
    cases hc : CreatePileupTuple d with
    | error e => exact ⟨rest, by simp [hcons]⟩
    | ok tpl => exact ⟨rest ++ [tpl], by simp [hcons]⟩

theorem jumpLoop_sought (bt : Bamtools Al F E) (refId p : Int) :
    ∀ (pending : List Al) (eng : PileupEngine E) (q : PileupQueue), Sought p q →
      Sought p (jumpLoop bt refId (p - 1) pending eng q).2.2.2 ∧
        ((jumpLoop bt refId (p - 1) pending eng q).1 = .ok () →
          (jumpLoop bt refId (p - 1) pending eng q).2.2.2.Pileups = [] →
          (jumpLoop bt refId (p - 1) pending eng q).2.1 = [])
  | [], eng, q, hq => by simp [jumpLoop, hq]
  | al :: rest, eng, q, hq => by
    have h1 := engineAddAlignment_inv (Sought p) (Visit_sought p) bt eng q al hq
    simp only [jumpLoop]
    rcases ha : engineAddAlignment bt eng q al with ⟨r, eng1, q1⟩
    rw [ha] at h1
    replace h1 : Sought p q1 := h1
    cases r with
    | error err => simpa using h1
    | ok u =>
      simp only
      by_cases hempty : q1.Pileups.isEmpty = true
      · simp only [hempty, if_true]
        exact jumpLoop_sought bt refId p rest eng1 q1 h1
      · simp only [hempty]
        rcases h1 with ⟨hnil, -⟩ | ⟨t, tl, hcons, hp⟩
        · simp [hnil] at hempty
        · have hkeep : (t :: tl).dropWhile
              (fun front => decide (front.RefId = refId ∧ front.position < p - 1)) = t :: tl := by
            apply List.dropWhile_cons_of_neg
            simp only [decide_eq_true_eq, not_and, not_lt]
            intro _
            omega
          have hge : t.RefId ≠ refId ∨ t.position ≥ p - 1 := Or.inr (by omega)
          simp only [hcons, hkeep, Bool.false_eq_true, if_false, hge, if_true]
          exact ⟨Or.inr ⟨t, tl, rfl, hp⟩, fun _ h => by simp at h⟩

theorem Jump_sought (bt : Bamtools Al F E) (s s1 : Pileup Al F E) (refName : String)
    (p : Int) (hj : Pileup.Jump bt s refName p = (.ok (), s1)) :
    0 ≤ bt.GetReferenceID s.m_BamReader refName ∧ Sought p s1.m_PileupQueue ∧
      (s1.m_PileupQueue.Pileups = [] → s1.m_BamReader.pending = []) := by
  unfold Pileup.Jump at hj
  simp only at hj
  by_cases hneg : bt.GetReferenceID s.m_BamReader refName < 0
  · simp [hneg] at hj
  · simp only [hneg, if_false] at hj
    rcases hf : engineFlush bt s.m_PileupEngine s.m_PileupQueue with ⟨r, eng, q⟩
    rw [hf] at hj
    cases r with
    | error err => simp at hj
    | ok u =>
      simp only at hj
      have hloop := jumpLoop_sought bt (bt.GetReferenceID s.m_BamReader refName) p
        (bt.Jump s.m_BamReader (bt.GetReferenceID s.m_BamReader refName) (p - 1)).pending eng
        { q.Clear with StartPosition := p - 1 } (Or.inl ⟨rfl, rfl⟩)
      rcases hl : jumpLoop bt (bt.GetReferenceID s.m_BamReader refName) (p - 1)
        (bt.Jump s.m_BamReader (bt.GetReferenceID s.m_BamReader refName) (p - 1)).pending eng
        { q.Clear with StartPosition := p - 1 } with ⟨r2, rest2, eng2, q2⟩
      rw [hl] at hloop hj
      simp only [Prod.mk.injEq] at hj
      obtain ⟨hr, hs⟩ := hj
      subst hs
      exact ⟨by omega, hloop.1, hloop.2 hr⟩

theorem nextLoop_inv (I : PileupQueue → Prop)
    (hI : ∀ (q : PileupQueue) (d : PileupPosition), I q → I (q.Visit d).2)
    (bt : Bamtools Al F E) :
    ∀ (pending : List Al) (eng : PileupEngine E) (q : PileupQueue), I q →
      I (nextLoop bt pending eng q).2.2.2
  | [], eng, q, hq => by simpa [nextLoop] using hq
  | al :: rest, eng, q, hq => by
    have h1 := engineAddAlignment_inv I hI bt eng q al hq
    simp only [nextLoop]
    rcases ha : engineAddAlignment bt eng q al with ⟨r, eng1, q1⟩
    rw [ha] at h1
    replace h1 : I q1 := h1
    cases r with
    | error err => simpa using h1
    | ok u =>
      simp only
      split_ifs
      · exact h1
      · exact nextLoop_inv I hI bt rest eng1 q1 h1

theorem Next_of_head (bt : Bamtools Al F E) (s s2 : Pileup Al F E) (t : PileupTuple)
    (r : Option PileupTuple) (hq : ∃ rest, s.m_PileupQueue.Pileups = t :: rest)
    (hn : Pileup.Next bt s = (.ok r, s2)) : r = some t := by
  have hloop := nextLoop_inv (fun q => ∃ rest, q.Pileups = t :: rest) (Visit_head t) bt
    s.m_BamReader.pending s.m_PileupEngine s.m_PileupQueue hq
  unfold Pileup.Next at hn
  rcases hl : nextLoop bt s.m_BamReader.pending s.m_PileupEngine s.m_PileupQueue with
    ⟨r1, rest1, eng1, q1⟩
  rw [hl] at hloop hn
  obtain ⟨tl, hcons⟩ := hloop
  replace hcons : q1.Pileups = t :: tl := hcons
  cases r1 with
  | error err => simp at hn
  | ok u =>
    simp only [hcons, Prod.mk.injEq, Except.ok.injEq] at hn
    exact hn.1.symm

theorem Next_of_exhausted (bt : Bamtools Al F E) (s s2 : Pileup Al F E)
    (r : Option PileupTuple) (hq : s.m_PileupQueue.Pileups = [])
    (hp : s.m_BamReader.pending = []) (hn : Pileup.Next bt s = (.ok r, s2)) : r = none := by
  unfold Pileup.Next at hn
  simp only [hp, nextLoop, hq, Prod.mk.injEq, Except.ok.injEq] at hn
  exact hn.1.symm

/-- C4. When `Jump(refName, p)` returns, the first following `Next()` that returns gives either
`None` or a record; a record of the target reference has position `p` or later (and so has
every record returned there), so no record of the target reference with a position before `p`
is returned.  `Jump` returns only for a known reference name. -/
theorem first_next_after_jump (bt : Bamtools Al F E) (s s1 s2 : Pileup Al F E)
    (refName : String) (p : Int) (r : Option PileupTuple)
    (hj : Pileup.Jump bt s refName p = (.ok (), s1))
    (hn : Pileup.Next bt s1 = (.ok r, s2)) :
    (r = none ∨ ∃ t, r = some t ∧
      ((t.RefId = bt.GetReferenceID s.m_BamReader refName ∧ p ≤ t.position) ∨
        t.RefId ≠ bt.GetReferenceID s.m_BamReader refName)) ∧
    ¬ (∃ t, r = some t ∧ t.RefId = bt.GetReferenceID s.m_BamReader refName ∧
      t.position < p) := by
  obtain ⟨-, hsought, hpending⟩ := Jump_sought bt s s1 refName p hj
  have key : r = none ∨ ∃ t, r = some t ∧ p ≤ t.position := by
    rcases hsought with ⟨hnil, -⟩ | ⟨t, rest, hcons, hp⟩
    · exact Or.inl (Next_of_exhausted bt s1 s2 r hnil (hpending hnil) hn)
    · exact Or.inr ⟨t, Next_of_head bt s1 s2 t r ⟨rest, hcons⟩ hn, hp⟩
  refine ⟨?_, ?_⟩
  · rcases key with hnone | ⟨t, ht, hp⟩
    · exact Or.inl hnone
    · refine Or.inr ⟨t, ht, ?_⟩
      by_cases href : t.RefId = bt.GetReferenceID s.m_BamReader refName
      · exact Or.inl ⟨href, hp⟩
      · exact Or.inr href
  · rintro ⟨t, ht, -, hlt⟩
    rcases key with hnone | ⟨t1, ht1, hp⟩
    · rw [hnone] at ht
      exact absurd ht (by simp)
    · rw [ht1] at ht
      injection ht with ht
      subst ht
      omega

end CursorProofs

/-- Witness of C4 on the scripted file `a.bam`: `Jump("chr1", 100)` returns, the reads it pulls
finalize the 0-based positions 97 and 98 (withheld) and 99, 100, and the next `Next()` returns
the record of reference 0 at the 1-based position 100. -/
theorem first_next_after_jump_witness :
    Pileup.Jump (scripted files) afterOpenA "chr1" 100 = (.ok (), afterJump100) ∧
    returnedKey (Pileup.Next (scripted files) afterJump100).1 = some (some (0, 100)) ∧
    ¬ (∃ t, returnedValue (Pileup.Next (scripted files) afterJump100).1 = some t ∧
      t.RefId = (scripted files).GetReferenceID afterOpenA.m_BamReader "chr1" ∧
      t.position < 100) :=
  ⟨rfl, by decide,
    (first_next_after_jump (scripted files) afterOpenA afterJump100
      (Pileup.Next (scripted files) afterJump100).2 "chr1" 100
      (returnedValue (Pileup.Next (scripted files) afterJump100).1) rfl rfl).2⟩

section OpenAndJump

variable {Al F E : Type}

/-- C7. `Jump` with a reference name the reader does not know (`GetReferenceID < 0`) throws
the invalid-reference error and leaves the whole cursor as it was: the queue contents, the
`StartPosition` watermark, the engine (no visitor invocation, so no flush) and the alignments
the reader still holds (none is pulled). -/
theorem jump_unknown_reference (bt : Bamtools Al F E) (s : Pileup Al F E) (refName : String)
    (p : Int) (h : bt.GetReferenceID s.m_BamReader refName < 0) :
    Pileup.Jump bt s refName p = (.error (.invalid_ref_name refName), s) := by
  unfold Pileup.Jump
  simp [h]

/-- Witness of C7: on the scripted cursor after `Jump("chr1", 100)`, whose queue holds two
records, `chrX` is unknown and `Jump("chrX", 5)` changes nothing. -/
theorem jump_unknown_reference_witness :
    (scripted files).GetReferenceID afterJump100.m_BamReader "chrX" < 0 ∧
    afterJump100.m_PileupQueue.Pileups.length = 2 ∧
    Pileup.Jump (scripted files) afterJump100 "chrX" 5 =
      (.error (.invalid_ref_name "chrX"), afterJump100) :=
  ⟨by decide, by decide, jump_unknown_reference (scripted files) afterJump100 "chrX" 5 (by decide)⟩

theorem Open_ok (bt : Bamtools Al F E) (s s1 : Pileup Al F E) (bamFilename : String)
    (ho : Pileup.Open bt s bamFilename = (.ok (), s1)) :
    s1.m_PileupQueue.Pileups = [] ∧
      s1.m_PileupQueue.StartPosition =
        (engineFlush bt s.m_PileupEngine s.m_PileupQueue).2.2.StartPosition := by
  unfold Pileup.Open at ho
  rcases h1 : bt.Open s.m_BamReader bamFilename with ⟨b1, rd1⟩
  rw [h1] at ho
  cases b1 with
  | false => simp at ho
  | true =>
    simp only at ho
    rcases h2 : bt.LocateIndex rd1 with ⟨b2, rd2⟩
    rw [h2] at ho
    cases b2 with
    | false => simp at ho
    | true =>
      simp only at ho
      rcases h3 : engineFlush bt s.m_PileupEngine s.m_PileupQueue with ⟨r, eng, q⟩
      rw [h3] at ho
      cases r with
      | error e => simp at ho
      | ok u =>
        simp only [Prod.mk.injEq, true_and] at ho
        subst ho
        exact ⟨rfl, rfl⟩

/-- C8, the code on the scripted files: after `Open("a.bam")` and `Jump("chr2", 200)` the queue
is empty and the watermark is armed at 199.  `Open("b.bam")` then succeeds and leaves the queue
empty, but `StartPosition` is still 199, and the following `Next()` returns `None`: every
position of `b.bam` (10 to 13) is discarded.  On a fresh cursor the same `Open` and `Next`
return the record at the 1-based position 11. -/
theorem open_keeps_armed_watermark :
    afterJumpPastEnd.m_PileupQueue.Pileups.length = 0 ∧
    afterJumpPastEnd.m_PileupQueue.StartPosition = 199 ∧
    afterJumpPastEnd.m_PileupEngine.visited.length = 0 ∧
    (Pileup.Open (scripted files) afterJumpPastEnd "b.bam").1.toOption = some () ∧
    (Pileup.Open (scripted files) afterJumpPastEnd "b.bam").2.m_PileupQueue.Pileups.length = 0 ∧
    (Pileup.Open (scripted files) afterJumpPastEnd "b.bam").2.m_PileupQueue.StartPosition = 199 ∧
    returnedKey (Pileup.Next (scripted files)
      (Pileup.Open (scripted files) afterJumpPastEnd "b.bam").2).1 = some none ∧
    returnedKey (Pileup.Next (scripted files)
      (Pileup.Open (scripted files) fresh "b.bam").2).1 = some (some (0, 11)) := by
  decide

end OpenAndJump

section FifoProofs

variable {Al F E : Type}

theorem Fifo.refl (visited : List PileupPosition) (q : PileupQueue) :
    Fifo visited q [] visited q :=
  ⟨[], [], by simp, by simp, by simp⟩

theorem Fifo.trans {v v1 v2 : List PileupPosition} {q q1 q2 : PileupQueue}
    {o1 o2 : List PileupTuple} (h1 : Fifo v q o1 v1 q1) (h2 : Fifo v1 q1 o2 v2 q2) :
    Fifo v q (o1 ++ o2) v2 q2 := by
  obtain ⟨vs1, p1, hv1, hs1, he1⟩ := h1
  obtain ⟨vs2, p2, hv2, hs2, he2⟩ := h2
  refine ⟨vs1 ++ vs2, p1 ++ p2, by rw [hv2, hv1, List.append_assoc], ?_, ?_⟩
  · rw [List.filterMap_append]
    exact hs1.append hs2
  · rw [List.append_assoc, he2, ← List.append_assoc, he1, List.append_assoc]

theorem Visit_fifo (visited : List PileupPosition) (q : PileupQueue) (d : PileupPosition) :
    Fifo visited q [] (visited ++ [d]) (q.Visit d).2 := by
  unfold PileupQueue.Visit
  by_cases hlt : d.Position < q.StartPosition
  · exact ⟨[d], [], rfl, by simp, by simp [hlt]⟩
  · simp only [hlt, if_false]
    cases hc : CreatePileupTuple d with
    | error e => exact ⟨[d], [], rfl, by simp, by simp⟩
    | ok tpl =>
      refine ⟨[d], [tpl], rfl, ?_, by simp⟩
      simp [tupleOf, hc, Except.toOption]

theorem applyVisitors_fifo (done : E) :
    ∀ (calls : List (E × PileupPosition)) (visited : List PileupPosition) (q : PileupQueue),
      Fifo visited q [] (applyVisitors done calls visited q).2.1.visited
        (applyVisitors done calls visited q).2.2
  | [], visited, q => by simpa [applyVisitors] using Fifo.refl visited q
  | (e, d) :: rest, visited, q => by
    have h1 := Visit_fifo visited q d
    simp only [applyVisitors]
    rcases hv : q.Visit d with ⟨r, q1⟩
    rw [hv] at h1
    replace h1 : Fifo visited q [] (visited ++ [d]) q1 := h1
    cases r with
    | error err => simpa using h1
    | ok u => simpa using h1.trans (applyVisitors_fifo done rest (visited ++ [d]) q1)

theorem nextLoop_fifo (bt : Bamtools Al F E) :
    ∀ (pending : List Al) (eng : PileupEngine E) (q : PileupQueue),
      Fifo eng.visited q [] (nextLoop bt pending eng q).2.2.1.visited
        (nextLoop bt pending eng q).2.2.2
  | [], eng, q => by simpa [nextLoop] using Fifo.refl eng.visited q
  | al :: rest, eng, q => by
    have h1 : Fifo eng.visited q [] (engineAddAlignment bt eng q al).2.1.visited
        (engineAddAlignment bt eng q al).2.2 := applyVisitors_fifo _ _ _ _
    simp only [nextLoop]
    rcases ha : engineAddAlignment bt eng q al with ⟨r, eng1, q1⟩
    rw [ha] at h1
    replace h1 : Fifo eng.visited q [] eng1.visited q1 := h1
    cases r with
    | error err => simpa using h1
    | ok u =>
      simp only
      split_ifs
      · exact h1
      · simpa using h1.trans (nextLoop_fifo bt rest eng1 q1)

theorem Next_fifo (bt : Bamtools Al F E) (s : Pileup Al F E) :
    Fifo s.m_PileupEngine.visited s.m_PileupQueue (returnedRecords [(Pileup.Next bt s).1])
      (Pileup.Next bt s).2.m_PileupEngine.visited (Pileup.Next bt s).2.m_PileupQueue := by
  have h1 := nextLoop_fifo bt s.m_BamReader.pending s.m_PileupEngine s.m_PileupQueue
  unfold Pileup.Next
  rcases hl : nextLoop bt s.m_BamReader.pending s.m_PileupEngine s.m_PileupQueue with
    ⟨r, rest, eng1, q1⟩
  rw [hl] at h1
  replace h1 : Fifo s.m_PileupEngine.visited s.m_PileupQueue [] eng1.visited q1 := h1
  cases r with
  | error err => simpa [returnedRecords] using h1
  | ok u =>
    simp only
    obtain ⟨vs, pushed, hv, hs, he⟩ := h1
    cases hq : q1.Pileups with
    | nil =>
      simp only [returnedRecords]
      exact ⟨vs, pushed, hv, hs, by simpa [hq] using he⟩
    | cons tpl others =>
      simp only [returnedRecords]
      exact ⟨vs, pushed, hv, hs, by simpa [hq] using he⟩

theorem returnedRecords_cons (r : Except Error (Option PileupTuple))
    (rs : List (Except Error (Option PileupTuple))) :
    returnedRecords (r :: rs) = returnedRecords [r] ++ returnedRecords rs := by
  rcases r with e | _ | t <;> simp [returnedRecords]

theorem NextRun_fifo (bt : Bamtools Al F E) :
    ∀ (n : Nat) (s : Pileup Al F E),
      Fifo s.m_PileupEngine.visited s.m_PileupQueue (returnedRecords (NextRun bt n s).1)
        (NextRun bt n s).2.m_PileupEngine.visited (NextRun bt n s).2.m_PileupQueue
  | 0, s => by simpa [NextRun, returnedRecords] using Fifo.refl _ _
  | n + 1, s => by
    simp only [NextRun]
    rw [returnedRecords_cons]
    exact (Next_fifo bt s).trans (NextRun_fifo bt n (Pileup.Next bt s).2)

theorem tupleOf_le {a b : PileupPosition} (h : a.le b) :
    ∀ ta ∈ tupleOf a, ∀ tb ∈ tupleOf b, PileupTuple.le ta tb := by
  intro ta hta tb htb
  have ha : CreatePileupTuple a = .ok ta := by
    unfold tupleOf at hta
    cases hc : CreatePileupTuple a with
    | error e => simp [hc, Except.toOption] at hta
    | ok t => simp [hc, Except.toOption] at hta; rw [hta]
  have hb : CreatePileupTuple b = .ok tb := by
    unfold tupleOf at htb
    cases hc : CreatePileupTuple b with
    | error e => simp [hc, Except.toOption] at htb
    | ok t => simp [hc, Except.toOption] at htb; rw [htb]
  obtain ⟨-, -, hra, hpa, -⟩ := CreatePileupTuple_ok ha
  obtain ⟨-, -, hrb, hpb, -⟩ := CreatePileupTuple_ok hb
  unfold PileupTuple.le
  unfold PileupPosition.le at h
  rw [hra, hrb, hpa, hpb]
  omega

/-- C5. After a successful `Open`, in a run of `n` consecutive calls of `Next` the records
returned, followed by those still queued, are a subsequence, in order, of the records of the
positions the engine passed to the visitor during the run: the queue is first in, first out and
a record is returned at most once.  If the engine makes those visitor invocations in
non-decreasing `(RefId, Position)` order, the records returned are in non-decreasing
`(RefId, position)` order. -/
theorem next_records_in_order (bt : Bamtools Al F E) (s0 s : Pileup Al F E)
    (bamFilename : String) (n : Nat)
    (ho : Pileup.Open bt s0 bamFilename = (.ok (), s)) :
    List.Sublist
        (returnedRecords (NextRun bt n s).1 ++ (NextRun bt n s).2.m_PileupQueue.Pileups)
        (((NextRun bt n s).2.m_PileupEngine.visited.drop
          s.m_PileupEngine.visited.length).filterMap tupleOf) ∧
      (List.Pairwise PileupPosition.le
          ((NextRun bt n s).2.m_PileupEngine.visited.drop s.m_PileupEngine.visited.length) →
        List.Pairwise PileupTuple.le (returnedRecords (NextRun bt n s).1)) := by
  obtain ⟨vs, pushed, hv, hs, he⟩ := NextRun_fifo bt n s
  rw [(Open_ok bt s0 s bamFilename ho).1, List.nil_append] at he
  have hsub : List.Sublist
      (returnedRecords (NextRun bt n s).1 ++ (NextRun bt n s).2.m_PileupQueue.Pileups)
      (((NextRun bt n s).2.m_PileupEngine.visited.drop
        s.m_PileupEngine.visited.length).filterMap tupleOf) := by
    rw [hv, List.drop_left, he]
    exact hs
  refine ⟨hsub, fun hsorted => ?_⟩
  have h1 := List.Pairwise.filterMap tupleOf (fun a b hab => tupleOf_le hab) hsorted
  exact (h1.sublist hsub).sublist (List.sublist_append_left _ _)

end FifoProofs

/-- Witness of C5 on the scripted file `a.bam`: `Open` succeeds on a fresh cursor, the engine
visits the positions in non-decreasing order during nine calls of `Next`, and the calls return
the records of reference 0 at the 1-based positions 98 to 103, then those of reference 1 at 6
and 7, then `None`. -/
theorem next_records_in_order_witness :
    Pileup.Open (scripted files) fresh "a.bam" = (.ok (), afterOpenA) ∧
    List.Pairwise PileupPosition.le
      ((NextRun (scripted files) 9 afterOpenA).2.m_PileupEngine.visited.drop
        afterOpenA.m_PileupEngine.visited.length) ∧
    (NextRun (scripted files) 9 afterOpenA).1.map returnedKey =
      [some (some (0, 98)), some (some (0, 99)), some (some (0, 100)), some (some (0, 101)),
        some (some (0, 102)), some (some (0, 103)), some (some (1, 6)), some (some (1, 7)),
        some none] ∧
    List.Pairwise PileupTuple.le (returnedRecords (NextRun (scripted files) 9 afterOpenA).1) :=
  ⟨rfl, by decide, by decide,
    (next_records_in_order (scripted files) fresh afterOpenA "a.bam" 9 rfl).2 (by decide)⟩

/-! ## Major and minor base -/

theorem majorLoop_isFirstMax (nt : NtData) : IsFirstMax nt (majorLoop nt [0, 1, 2, 3] 0) := by
  simp only [majorLoop, IsFirstMax]
  split_ifs <;> refine ⟨by omega, fun j hj => ?_, fun j hj => ?_⟩ <;> interval_cases j <;> omega

theorem IsFirstMax.unique {nt : NtData} {m n : Nat} (hm : IsFirstMax nt m)
    (hn : IsFirstMax nt n) : m = n := by
  rcases Nat.lt_trichotomy m n with hlt | heq | hgt
  · have h1 := hn.2.2 m hlt
    have h2 := hm.2.1 n hn.1
    omega
  · exact heq
  · have h1 := hm.2.2 n hgt
    have h2 := hn.2.1 m hm.1
    omega

/-- C13, the code at the scenario of the specification: the counts are `A = 2` and `T = 1`,
the first index of the maximal count is 0 (`A`), and the returned `majorBaseIdx` is 3 (`T`). -/
theorem first_maximum_at_scenario :
    ∃ t, CreatePileupTuple scenario = .ok t ∧ IsFirstMax t.ntData 0 ∧
      majorLoop t.ntData [0, 1, 2, 3] 0 = 0 ∧
      t.ntData 0 0 = 2 ∧ t.ntData 3 0 = 1 ∧ t.majorBaseIdx = 3 :=
  ⟨_, rfl, ⟨by decide, by decide, by decide⟩, by decide, by decide, by decide, by decide⟩

/-- C14, the code at the scenario of the specification: with `A = 2`, `C = 0`, `G = 0`,
`T = 1` the returned `minorBaseIdx` is 1 (`C`, count 0), not 3 (`T`), and the returned
`majorBaseIdx` is 3; the count of the minor channel is below that of `A` and of `T`. -/
theorem minor_base_at_scenario :
    (CreatePileupTuple scenario).toOption.map
        (fun t => (t.minorBaseIdx, t.majorBaseIdx, t.ntData 0 0, t.ntData 1 0, t.ntData 2 0,
          t.ntData 3 0)) =
      some (1, 3, 2, 0, 0, 1) := by
  decide

/-- C15. Whenever `CreatePileupTuple` succeeds, the counts have a first index `m` of their
maximum, and the returned `minorBaseIdx` is `(m + 1) mod 4`, whatever the other counts are. -/
theorem minor_is_successor_of_first_maximum (pd : PileupPosition) (t : PileupTuple)
    (h : CreatePileupTuple pd = .ok t) :
    (∃ m, IsFirstMax t.ntData m) ∧
      ∀ m, IsFirstMax t.ntData m → t.minorBaseIdx = (m + 1) % 4 := by
  obtain ⟨acc, -, -, -, -, -, hminor, -⟩ := CreatePileupTuple_ok h
  refine ⟨⟨_, majorLoop_isFirstMax t.ntData⟩, fun m hm => ?_⟩
  rw [hminor, hm.unique (majorLoop_isFirstMax t.ntData)]

/-- Witness of C15: at the scenario of the specification (`A = 2`, `T = 1`) the first maximum
is at 0 and `minorBaseIdx` is 1; at two `G` and one `T` it is at 2 and `minorBaseIdx` is 3. -/
theorem minor_is_successor_of_first_maximum_witness :
    (∃ t, CreatePileupTuple scenario = .ok t ∧ IsFirstMax t.ntData 0 ∧
      t.minorBaseIdx = (0 + 1) % 4) ∧
    (∃ t, CreatePileupTuple twoGoneT = .ok t ∧ IsFirstMax t.ntData 2 ∧
      t.minorBaseIdx = (2 + 1) % 4) :=
  ⟨⟨_, rfl, ⟨by decide, by decide, by decide⟩,
      (minor_is_successor_of_first_maximum scenario _ rfl).2 0
        ⟨by decide, by decide, by decide⟩⟩,
    ⟨_, rfl, ⟨by decide, by decide, by decide⟩,
      (minor_is_successor_of_first_maximum twoGoneT _ rfl).2 2
        ⟨by decide, by decide, by decide⟩⟩⟩

theorem minorLoop_closed (nt : NtData) (d m : Nat) :
    minorLoop nt d [0, 1, 2, 3] m =
      if nt 3 0 > nt d 0 then 3 else if nt 2 0 > nt d 0 then 2
      else if nt 1 0 > nt d 0 then 1 else if nt 0 0 > nt d 0 then 0 else m := by
  simp only [minorLoop]
  split_ifs <;> omega

/-- C20. Whenever `CreatePileupTuple` succeeds, with `m` the first index of the maximal count
and `d = (m + 1) mod 4`: the returned `majorBaseIdx` is the largest index in `0..3` whose count
is strictly greater than the count of channel `d`, and it is `m` when there is no such index.
Hence it is `m` whenever `m` is 2 (`G`) or 3 (`T`), and differs from `m` only when `m` is
0 (`A`) or 1 (`C`). -/
theorem major_is_last_above_default (pd : PileupPosition) (t : PileupTuple) (m : Nat)
    (h : CreatePileupTuple pd = .ok t) (hm : IsFirstMax t.ntData m) :
    (∀ b, b < 4 → t.ntData b 0 > t.ntData ((m + 1) % 4) 0 →
        (∀ c, c < 4 → t.ntData c 0 > t.ntData ((m + 1) % 4) 0 → c ≤ b) →
        t.majorBaseIdx = b) ∧
      ((∀ b, b < 4 → ¬ t.ntData b 0 > t.ntData ((m + 1) % 4) 0) → t.majorBaseIdx = m) ∧
      (m = 2 ∨ m = 3 → t.majorBaseIdx = m) ∧
      (t.majorBaseIdx ≠ m → m = 0 ∨ m = 1) := by
  obtain ⟨acc, -, -, -, -, -, hminor, hmajor⟩ := CreatePileupTuple_ok h
  rw [hminor, ← hm.unique (majorLoop_isFirstMax t.ntData), minorLoop_closed] at hmajor
  have hm4 := hm.1
  have e0 := hm.2.1 0 (by omega)
  have e1 := hm.2.1 1 (by omega)
  have e2 := hm.2.1 2 (by omega)
  have e3 := hm.2.1 3 (by omega)
  have s0 := hm.2.2 0
  have s1 := hm.2.2 1
  have s2 := hm.2.2 2
  rw [hmajor]
  clear hmajor hminor hm h
  refine ⟨fun b hb hab hlast => ?_, fun hnone => ?_, fun h23 => ?_, fun hne => ?_⟩
  · have l0 := hlast 0 (by omega)
    have l1 := hlast 1 (by omega)
    have l2 := hlast 2 (by omega)
    have l3 := hlast 3 (by omega)
    interval_cases b <;> split_ifs <;> omega
  · have n0 := hnone 0 (by omega)
    have n1 := hnone 1 (by omega)
    have n2 := hnone 2 (by omega)
    have n3 := hnone 3 (by omega)
    split_ifs
    all_goals omega
  · rcases h23 with rfl | rfl
    · have hd : (2 + 1) % 4 = 3 := by decide
      rw [hd] at *
      split_ifs <;> omega
    · have hd : (3 + 1) % 4 = 0 := by decide
      rw [hd] at *
      split_ifs <;> omega
  · by_contra hcon
    have h23 : m = 2 ∨ m = 3 := by omega
    apply hne
    rcases h23 with rfl | rfl
    · have hd : (2 + 1) % 4 = 3 := by decide
      rw [hd] at *
      split_ifs <;> omega
    · have hd : (3 + 1) % 4 = 0 := by decide
      rw [hd] at *
      split_ifs <;> omega

/-- Witness of C20 at the scenario of the specification: the first maximum is at 0 (`A`),
so `d = 1` (`C`, count 0); the largest index with a count above 0 is 3 (`T`), which is the
returned `majorBaseIdx` and differs from 0.  At two `G` and one `T` the first maximum is at 2
and `majorBaseIdx` is 2. -/
theorem major_is_last_above_default_witness :
    (∃ t, CreatePileupTuple scenario = .ok t ∧ IsFirstMax t.ntData 0 ∧
      t.ntData 3 0 > t.ntData ((0 + 1) % 4) 0 ∧ t.majorBaseIdx = 3) ∧
    (∃ t, CreatePileupTuple twoGoneT = .ok t ∧ IsFirstMax t.ntData 2 ∧ t.majorBaseIdx = 2) :=
  ⟨⟨_, rfl, ⟨by decide, by decide, by decide⟩, by decide,
      (major_is_last_above_default scenario _ 0 rfl ⟨by decide, by decide, by decide⟩).1 3
        (by decide) (by decide) (by decide)⟩,
    ⟨_, rfl, ⟨by decide, by decide, by decide⟩,
      (major_is_last_above_default twoGoneT _ 2 rfl ⟨by decide, by decide, by decide⟩).2.2.1
        (Or.inl rfl)⟩⟩

/-! ## Visit and Clear -/

/-- C16. `Visit` on a position whose observation set the computer accepts: a position below
`StartPosition` is discarded, queue and `StartPosition` unchanged; otherwise the computer's
record, which carries `Position + 1`, is appended at the back of the queue, the entries queued
before are unchanged and `StartPosition` becomes -1.  With `StartPosition` at -1 every `Visit`
of an accepted position that is not negative appends its record and keeps `StartPosition` at
-1.  `Clear` empties the queue and leaves `StartPosition` unchanged. -/
theorem visit_of_accepted_position (q : PileupQueue) (d : PileupPosition) (tpl : PileupTuple)
    (h : CreatePileupTuple d = .ok tpl) :
    (d.Position < q.StartPosition → q.Visit d = (.ok (), q)) ∧
    (¬ d.Position < q.StartPosition →
      q.Visit d = (.ok (), ⟨q.Pileups ++ [tpl], -1⟩) ∧ tpl.position = d.Position + 1) ∧
    (∀ (q1 : PileupQueue) (d1 : PileupPosition) (tpl1 : PileupTuple),
      q1.StartPosition = -1 → 0 ≤ d1.Position → CreatePileupTuple d1 = .ok tpl1 →
      q1.Visit d1 = (.ok (), ⟨q1.Pileups ++ [tpl1], -1⟩)) ∧
    (q.Clear.Pileups = [] ∧ q.Clear.StartPosition = q.StartPosition) := by
  refine ⟨fun hlt => ?_, fun hge => ⟨?_, ?_⟩, fun q1 d1 tpl1 hs hpos h1 => ?_, rfl, rfl⟩
  · simp [PileupQueue.Visit, hlt]
  · simp [PileupQueue.Visit, hge, h]
  · obtain ⟨-, -, -, hpos, -⟩ := CreatePileupTuple_ok h
    exact hpos
  · have hge : ¬ d1.Position < q1.StartPosition := by omega
    simp [PileupQueue.Visit, hge, h1]

/-- Witness of C16 on a queue armed at 99: the accepted position 98 is discarded, the accepted
position 99 is enqueued as the record at position 100 and disarms the watermark. -/
theorem visit_of_accepted_position_witness :
    (∃ tpl, CreatePileupTuple (oneA 0 98) = .ok tpl ∧
      armedAt99.Visit (oneA 0 98) = (.ok (), armedAt99)) ∧
    (∃ tpl, CreatePileupTuple (oneA 0 99) = .ok tpl ∧
      armedAt99.Visit (oneA 0 99) = (.ok (), ⟨armedAt99.Pileups ++ [tpl], -1⟩) ∧
      tpl.position = 100) :=
  ⟨⟨_, rfl, (visit_of_accepted_position armedAt99 (oneA 0 98) _ rfl).1 (by decide)⟩,
    ⟨_, rfl, ((visit_of_accepted_position armedAt99 (oneA 0 99) _ rfl).2.1 (by decide)).1,
      by decide⟩⟩

/-- C17. When the computer fails on the observation set of a position that is not below
`StartPosition`, `Visit` fails with the same error and enqueues nothing: the queue and
`StartPosition` are what they were, so an armed watermark stays armed. -/
theorem visit_of_rejected_position (q : PileupQueue) (d : PileupPosition) (e : Error)
    (hs : ¬ d.Position < q.StartPosition) (h : CreatePileupTuple d = .error e) :
    q.Visit d = (.error e, q) := by
  simp [PileupQueue.Visit, hs, h]

/-- Witness of C17: `withM` lies at position 7, not below the watermark 5 of a queue holding
one record; the computer rejects its `M`, and `Visit` leaves the queue as it was. -/
theorem visit_of_rejected_position_witness :
    armedAt5.Pileups.length = 1 ∧ ¬ withM.Position < armedAt5.StartPosition ∧
    CreatePileupTuple withM = .error (.unrecognized_base 'M') ∧
    armedAt5.Visit withM = (.error (.unrecognized_base 'M'), armedAt5) :=
  ⟨by decide, by decide, rfl,
    visit_of_rejected_position armedAt5 withM _ (by decide) rfl⟩

/-! ## Next with a non-empty queue, and the pull loop of Jump -/

section PullProofs

variable {Al F E : Type}

/-- C12, the code on the scripted cursor after `Jump("chr1", 100)`: the queue holds the
records at positions 100 and 101 and the reader two more alignments.  `Next()` returns the
front record, and it has pulled one alignment: one alignment is left to read, the engine has
visited two more positions, and the queue holds three records, 101 and the new 102 and 103. -/
theorem next_pulls_with_queued_records :
    afterJump100.m_PileupQueue.Pileups.map PileupTuple.key = [(0, 100), (0, 101)] ∧
    afterJump100.m_BamReader.pending.length = 2 ∧
    returnedKey (Pileup.Next (scripted files) afterJump100).1 = some (some (0, 100)) ∧
    (Pileup.Next (scripted files) afterJump100).2.m_BamReader.pending.length = 1 ∧
    (Pileup.Next (scripted files) afterJump100).2.m_PileupEngine.visited.length =
      afterJump100.m_PileupEngine.visited.length + 2 ∧
    (Pileup.Next (scripted files) afterJump100).2.m_PileupQueue.Pileups.map PileupTuple.key =
      [(0, 101), (0, 102), (0, 103)] := by
  decide

theorem nextLoop_cons_of_head (bt : Bamtools Al F E) (al : Al) (more : List Al)
    (eng : PileupEngine E) (q : PileupQueue) (t : PileupTuple)
    (hq : ∃ rest, q.Pileups = t :: rest) :
    nextLoop bt (al :: more) eng q =
      ((engineAddAlignment bt eng q al).1, more, (engineAddAlignment bt eng q al).2.1,
        (engineAddAlignment bt eng q al).2.2) := by
  have hhead := engineAddAlignment_inv (fun q => ∃ rest, q.Pileups = t :: rest)
    (Visit_head t) bt eng q al hq
  simp only [nextLoop]
  rcases ha : engineAddAlignment bt eng q al with ⟨r, eng1, q1⟩
  rw [ha] at hhead
  obtain ⟨tl, htl⟩ := hhead
  replace htl : q1.Pileups = t :: tl := htl
  cases r with
  | error err => rfl
  | ok u => simp [htl]

/-- C12, amended. In a cursor state whose queue is non-empty, with front `t`: when the reader
has no alignment left, `Next()` returns `t` and removes it, and nothing else changes.  When the
reader has an alignment left, `Next()` reads that one alignment and adds it to the engine,
which appends the records it produces behind the queued entries; if no visitor call throws,
`Next()` then returns `t` and removes it, and the alignments after the first one stay unread;
if a visitor call throws, `Next()` throws the same error. -/
theorem next_with_queued_front (bt : Bamtools Al F E) (s : Pileup Al F E) (t : PileupTuple)
    (rest : List PileupTuple) (hq : s.m_PileupQueue.Pileups = t :: rest) :
    (s.m_BamReader.pending = [] →
      Pileup.Next bt s =
        (.ok (some t), { s with m_PileupQueue := { s.m_PileupQueue with Pileups := rest } })) ∧
    (∀ al more, s.m_BamReader.pending = al :: more →
      (∃ pushed, (engineAddAlignment bt s.m_PileupEngine s.m_PileupQueue al).2.2.Pileups =
        t :: (rest ++ pushed)) ∧
      (∀ u, (engineAddAlignment bt s.m_PileupEngine s.m_PileupQueue al).1 = .ok u →
        Pileup.Next bt s =
          (.ok (some t), ⟨s.RefNames, ⟨s.m_BamReader.handle, more⟩,
            (engineAddAlignment bt s.m_PileupEngine s.m_PileupQueue al).2.1,
            { (engineAddAlignment bt s.m_PileupEngine s.m_PileupQueue al).2.2 with
              Pileups :=
                (engineAddAlignment bt s.m_PileupEngine s.m_PileupQueue al).2.2.Pileups.tail }⟩)) ∧
      (∀ e, (engineAddAlignment bt s.m_PileupEngine s.m_PileupQueue al).1 = .error e →
        Pileup.Next bt s =
          (.error e, ⟨s.RefNames, ⟨s.m_BamReader.handle, more⟩,
            (engineAddAlignment bt s.m_PileupEngine s.m_PileupQueue al).2.1,
            (engineAddAlignment bt s.m_PileupEngine s.m_PileupQueue al).2.2⟩))) := by
  refine ⟨fun hp => ?_, fun al more hp => ?_⟩
  · obtain ⟨names, ⟨handle, pending⟩, eng, q⟩ := s
    simp only at hp hq
    subst hp
    simp [Pileup.Next, nextLoop, hq]
  · have hfifo : Fifo s.m_PileupEngine.visited s.m_PileupQueue []
        (engineAddAlignment bt s.m_PileupEngine s.m_PileupQueue al).2.1.visited
        (engineAddAlignment bt s.m_PileupEngine s.m_PileupQueue al).2.2 :=
      applyVisitors_fifo _ _ _ _
    obtain ⟨vs, pushed, -, -, he⟩ := hfifo
    rw [List.nil_append, hq, List.cons_append] at he
    have hloop := nextLoop_cons_of_head bt al more s.m_PileupEngine s.m_PileupQueue t
      ⟨rest, hq⟩
    refine ⟨⟨pushed, he⟩, fun u hu => ?_, fun e herr => ?_⟩
    · unfold Pileup.Next
      rw [hp, hloop, hu]
      simp [he]
    · unfold Pileup.Next
      rw [hp, hloop, herr]

end PullProofs

/-- Witness of C12, amended, on the scripted cursor after `Jump("chr1", 100)`: the front is the
record at position 100, and the alignment read by `Next()` appends the records at 102 and
103 behind the record at 101. -/
theorem next_with_queued_front_witness :
    ∃ t rest, afterJump100.m_PileupQueue.Pileups = t :: rest ∧
      t.key = (0, 100) ∧ rest.map PileupTuple.key = [(0, 101)] ∧
      ∃ al more, afterJump100.m_BamReader.pending = al :: more ∧
        ∃ pushed,
          (engineAddAlignment (scripted files) afterJump100.m_PileupEngine
            afterJump100.m_PileupQueue al).2.2.Pileups = t :: (rest ++ pushed) :=
  ⟨_, _, rfl, by decide, by decide, _, _, rfl,
    ((next_with_queued_front (scripted files) afterJump100 _ _ rfl).2 _ _ rfl).1⟩

/-- C18, the code on the scripted file `a.bam`: `Jump("chr1", 200)` returns; after the seek the
engine has passed the 0-based positions 5 and 6 of reference 1 (`chr2`) to the visitor, and
neither is enqueued: the queue is empty, the watermark is still armed at 199, the reader is
exhausted, and the following `Next()` returns `None`. -/
theorem jump_discards_other_reference :
    (scripted files).GetReferenceID afterOpenA.m_BamReader "chr1" = 0 ∧
    (Pileup.Jump (scripted files) afterOpenA "chr1" 200).1.toOption = some () ∧
    afterOpenA.m_PileupEngine.visited.length = 0 ∧
    afterJump200.m_PileupEngine.visited.map PileupPosition.key = [(1, 5), (1, 6)] ∧
    afterJump200.m_PileupQueue.Pileups.length = 0 ∧
    afterJump200.m_PileupQueue.StartPosition = 199 ∧
    afterJump200.m_BamReader.pending.length = 0 ∧
    returnedKey (Pileup.Next (scripted files) afterJump200).1 = some none := by
  decide

section JumpRefinement

variable {Al F E : Type}

theorem jumpLoop_eq_pullUntilNonEmpty (bt : Bamtools Al F E) (refId p : Int) :
    ∀ (pending : List Al) (eng : PileupEngine E) (q : PileupQueue), Sought p q →
      jumpLoop bt refId (p - 1) pending eng q = pullUntilNonEmpty bt pending eng q
  | [], eng, q, _ => rfl
  | al :: rest, eng, q, hq => by
    have h1 := engineAddAlignment_inv (Sought p) (Visit_sought p) bt eng q al hq
    simp only [jumpLoop, pullUntilNonEmpty]
    rcases ha : engineAddAlignment bt eng q al with ⟨r, eng1, q1⟩
    rw [ha] at h1
    replace h1 : Sought p q1 := h1
    cases r with
    | error err => rfl
    | ok u =>
      simp only
      by_cases hempty : q1.Pileups.isEmpty = true
      · simp only [hempty, if_true]
        exact jumpLoop_eq_pullUntilNonEmpty bt refId p rest eng1 q1 h1
      · simp only [hempty]
        rcases h1 with ⟨hnil, -⟩ | ⟨t, tl, hcons, hp⟩
        · simp [hnil] at hempty
        · have hkeep : (t :: tl).dropWhile
              (fun front => decide (front.RefId = refId ∧ front.position < p - 1)) = t :: tl := by
            apply List.dropWhile_cons_of_neg
            simp only [decide_eq_true_eq, not_and, not_lt]
            intro _
            omega
          have hge : t.RefId ≠ refId ∨ t.position ≥ p - 1 := Or.inr (by omega)
          simp only [hcons, hkeep, Bool.false_eq_true, if_false, hge, if_true]
          rw [← hcons]

/-- C19. `Jump` does what the same member with the plain pull loop does, for every reader and
engine, every cursor state, reference name and target position: it pulls alignments until the
queue first becomes non-empty or the source is exhausted.  When it returns with a non-empty
queue, the front entry has a 1-based position greater than the 0-based target `p - 1`, so the
loop that removes positions before the target removes nothing and the check for having hit or
passed the target succeeds. -/
theorem jump_is_pull_until_nonempty (bt : Bamtools Al F E) (s : Pileup Al F E)
    (refName : String) (p : Int) :
    Pileup.Jump bt s refName p = Pileup.JumpByPulling bt s refName p ∧
    ∀ s1 front rest, Pileup.Jump bt s refName p = (.ok (), s1) →
      s1.m_PileupQueue.Pileups = front :: rest →
      p - 1 < front.position ∧
      (front :: rest).dropWhile
        (fun t => decide (t.RefId = bt.GetReferenceID s.m_BamReader refName ∧
          t.position < p - 1)) = front :: rest ∧
      (front.RefId ≠ bt.GetReferenceID s.m_BamReader refName ∨ front.position ≥ p - 1) := by
  refine ⟨?_, fun s1 front rest hj hfront => ?_⟩
  · unfold Pileup.Jump Pileup.JumpByPulling
    simp only
    split_ifs
    · rfl
    · rcases hf : engineFlush bt s.m_PileupEngine s.m_PileupQueue with ⟨r, eng, q⟩
      cases r with
      | error err => rfl
      | ok u =>
        simp only
        rw [jumpLoop_eq_pullUntilNonEmpty bt _ p _ eng _ (Or.inl ⟨rfl, rfl⟩)]
  · obtain ⟨-, hsought, -⟩ := Jump_sought bt s s1 refName p hj
    rcases hsought with ⟨hnil, -⟩ | ⟨t, tl, hcons, hp⟩
    · rw [hnil] at hfront
      exact absurd hfront (by simp)
    · rw [hcons] at hfront
      injection hfront with h1 h2
      subst h1
      refine ⟨by omega, ?_, Or.inr (by omega)⟩
      apply List.dropWhile_cons_of_neg
      simp only [decide_eq_true_eq, not_and, not_lt]
      intro _
      omega

end JumpRefinement

/-! ## Entropy -/

theorem entropyLoop_closed (nt : NtData) (depth : ℝ) :
    entropyLoop nt depth [0, 1, 2, 3] 0 =
      (((0 - (if (nt 0 0 : ℝ) / depth ≠ 0 then
            Real.log ((nt 0 0 : ℝ) / depth) * ((nt 0 0 : ℝ) / depth) else 0))
        - (if (nt 1 0 : ℝ) / depth ≠ 0 then
            Real.log ((nt 1 0 : ℝ) / depth) * ((nt 1 0 : ℝ) / depth) else 0))
        - (if (nt 2 0 : ℝ) / depth ≠ 0 then
            Real.log ((nt 2 0 : ℝ) / depth) * ((nt 2 0 : ℝ) / depth) else 0))
        - (if (nt 3 0 : ℝ) / depth ≠ 0 then
            Real.log ((nt 3 0 : ℝ) / depth) * ((nt 3 0 : ℝ) / depth) else 0) := by
  simp only [entropyLoop]
  split_ifs <;> ring

theorem entropy_of_half (nt : NtData) (h0 : nt 0 0 = 1) (h1 : nt 1 0 = 0) (h2 : nt 2 0 = 0)
    (h3 : nt 3 0 = 0) : entropyLoop nt 2 [0, 1, 2, 3] 0 = Real.log 2 / 2 := by
  rw [entropyLoop_closed, h0, h1, h2, h3]
  have hlog : Real.log ((1 : ℝ) / 2) = - Real.log 2 := by
    rw [one_div, Real.log_inv]
  norm_num
  rw [hlog]
  ring

/-- C11, the claim fails at one `A` and one `N`: the computer succeeds, every counted
observation has base `A`, and the entropy is `ln 2 / 2`, which is not 0. -/
theorem entropy_not_zero_with_uncounted :
    ∃ t, CreatePileupTuple oneAoneN = .ok t ∧
      (∀ pa ∈ oneAoneN.PileupAlignments, isCounted pa = true → hasBase 'A' pa = true) ∧
      entropyOf oneAoneN t.ntData = Real.log 2 / 2 ∧ entropyOf oneAoneN t.ntData ≠ 0 := by
  have hpos : Real.log 2 / 2 ≠ 0 := by
    have := Real.log_pos (by norm_num : (1 : ℝ) < 2)
    positivity
  have hdepth : ((oneAoneN.PileupAlignments.length : ℕ) : ℝ) = 2 := by
    norm_num [oneAoneN]
  refine ⟨_, rfl, by decide, ?_, ?_⟩
  · unfold entropyOf
    rw [hdepth]
    exact entropy_of_half _ (by decide) (by decide) (by decide) (by decide)
  · unfold entropyOf
    rw [hdepth, entropy_of_half _ (by decide) (by decide) (by decide) (by decide)]
    exact hpos

theorem isCounted_of_hasBase {pa : PileupAlignment} {i : Nat} (hi : i < 4)
    (h : hasBase (channelBase i) pa = true) : isCounted pa = true := by
  unfold isCounted
  interval_cases i <;> simp [channelBase] at h <;> simp [h]

theorem hasBase_unique {pa : PileupAlignment} {c1 c2 : Char} (h1 : hasBase c1 pa = true)
    (h2 : hasBase c2 pa = true) : c1 = c2 := by
  unfold hasBase at h1 h2
  simp only [Bool.and_eq_true, beq_iff_eq] at h1 h2
  have := h1.2.symm.trans h2.2
  exact Option.some.inj this

theorem count_zero_of_shared {pd : PileupPosition} {t : PileupTuple}
    (h : CreatePileupTuple pd = .ok t) {b i : Nat} (hb : b < 4) (hi : i < 4) (hne : i ≠ b)
    (hshare : ∀ pa ∈ pd.PileupAlignments, isCounted pa = true →
      hasBase (channelBase b) pa = true) :
    t.ntData i 0 = 0 := by
  rw [CreatePileupTuple_ntData_filter h, inChannel_base hi]
  have hnil : pd.PileupAlignments.filter (hasBase (channelBase i)) = [] := by
    rw [List.filter_eq_nil_iff]
    intro pa hpa hhas
    have hc := isCounted_of_hasBase hi hhas
    exact hne (channelBase_inj hi hb (hasBase_unique hhas (hshare pa hpa hc)))
  simp [hnil]

theorem total_count_sum {pd : PileupPosition} {t : PileupTuple}
    (h : CreatePileupTuple pd = .ok t) :
    t.ntData 4 0 = t.ntData 0 0 + t.ntData 1 0 + t.ntData 2 0 + t.ntData 3 0 := by
  simp only [CreatePileupTuple_ntData h]
  exact sum_contribution_total _

/-- C11, amended. Whenever `CreatePileupTuple` succeeds on a non-empty observation set, with
the entropy read as a real number: the entropy is 0 when all counted observations share one
base and either `depth` (the size of the whole set) equals the count of the Total channel or
no observation is counted; and the entropy is `ln 4` when the four base counts are equal and
positive and `depth` equals the count of the Total channel. -/
theorem entropy_zero_and_maximal (pd : PileupPosition) (t : PileupTuple)
    (h : CreatePileupTuple pd = .ok t) (hne : pd.PileupAlignments ≠ []) :
    (∀ b, b < 4 →
      (∀ pa ∈ pd.PileupAlignments, isCounted pa = true → hasBase (channelBase b) pa = true) →
      ((pd.PileupAlignments.length : Int) = t.ntData 4 0 ∨ t.ntData 4 0 = 0) →
      entropyOf pd t.ntData = 0) ∧
    (∀ c : Int, 0 < c → (∀ i, i < 4 → t.ntData i 0 = c) →
      (pd.PileupAlignments.length : Int) = t.ntData 4 0 →
      entropyOf pd t.ntData = Real.log 4) := by
  have htotal := (total_count_sum h)
  have hlen : 0 < pd.PileupAlignments.length := List.length_pos.mpr hne
  have hdepth : ((pd.PileupAlignments.length : ℕ) : ℝ) ≠ 0 := by positivity
  refine ⟨fun b hb hshare hcase => ?_, fun c hc hall hd => ?_⟩
  · have hz : ∀ i, i < 4 → i ≠ b → t.ntData i 0 = 0 :=
      fun i hi hib => count_zero_of_shared h hb hi hib hshare
    have hb0 : t.ntData b 0 = 0 ∨
        (t.ntData b 0 : ℝ) = ((pd.PileupAlignments.length : ℕ) : ℝ) := by
      rcases hcase with hfull | hzero
      · right
        have : t.ntData b 0 = (pd.PileupAlignments.length : Int) := by
          interval_cases b
          · rw [hfull, htotal, hz 1 (by omega) (by omega), hz 2 (by omega) (by omega),
              hz 3 (by omega) (by omega)]; ring
          · rw [hfull, htotal, hz 0 (by omega) (by omega), hz 2 (by omega) (by omega),
              hz 3 (by omega) (by omega)]; ring
          · rw [hfull, htotal, hz 0 (by omega) (by omega), hz 1 (by omega) (by omega),
              hz 3 (by omega) (by omega)]; ring
          · rw [hfull, htotal, hz 0 (by omega) (by omega), hz 1 (by omega) (by omega),
              hz 2 (by omega) (by omega)]; ring
        rw [this]
        simp
      · left
        interval_cases b
        · rw [htotal, hz 1 (by omega) (by omega), hz 2 (by omega) (by omega),
            hz 3 (by omega) (by omega)] at hzero; linarith
        · rw [htotal, hz 0 (by omega) (by omega), hz 2 (by omega) (by omega),
            hz 3 (by omega) (by omega)] at hzero; linarith
        · rw [htotal, hz 0 (by omega) (by omega), hz 1 (by omega) (by omega),
            hz 3 (by omega) (by omega)] at hzero; linarith
        · rw [htotal, hz 0 (by omega) (by omega), hz 1 (by omega) (by omega),
            hz 2 (by omega) (by omega)] at hzero; linarith
    unfold entropyOf
    rw [entropyLoop_closed]
    rcases hb0 with hb0 | hb0
    · have h0 : t.ntData 0 0 = 0 := by
        by_cases h0b : 0 = b
        · subst h0b; exact hb0
        · exact hz 0 (by omega) h0b
      have h1 : t.ntData 1 0 = 0 := by
        by_cases h0b : 1 = b
        · subst h0b; exact hb0
        · exact hz 1 (by omega) h0b
      have h2 : t.ntData 2 0 = 0 := by
        by_cases h0b : 2 = b
        · subst h0b; exact hb0
        · exact hz 2 (by omega) h0b
      have h3 : t.ntData 3 0 = 0 := by
        by_cases h0b : 3 = b
        · subst h0b; exact hb0
        · exact hz 3 (by omega) h0b
      rw [h0, h1, h2, h3]
      simp
    · interval_cases b
      · rw [hb0, hz 1 (by omega) (by omega), hz 2 (by omega) (by omega),
          hz 3 (by omega) (by omega), div_self hdepth]
        simp
      · rw [hb0, hz 0 (by omega) (by omega), hz 2 (by omega) (by omega),
          hz 3 (by omega) (by omega), div_self hdepth]
        simp
      · rw [hb0, hz 0 (by omega) (by omega), hz 1 (by omega) (by omega),
          hz 3 (by omega) (by omega), div_self hdepth]
        simp
      · rw [hb0, hz 0 (by omega) (by omega), hz 1 (by omega) (by omega),
          hz 2 (by omega) (by omega), div_self hdepth]
        simp
  · have h4 : (pd.PileupAlignments.length : Int) = 4 * c := by
      rw [hd, htotal, hall 0 (by omega), hall 1 (by omega), hall 2 (by omega),
        hall 3 (by omega)]
      ring
    have hreal : ((pd.PileupAlignments.length : ℕ) : ℝ) = 4 * (c : ℝ) := by
      exact_mod_cast h4
    have hc0 : (c : ℝ) ≠ 0 := by
      have : (0 : ℝ) < (c : ℝ) := by exact_mod_cast hc
      exact ne_of_gt this
    have hp : (c : ℝ) / (4 * (c : ℝ)) = 1 / 4 := by
      field_simp
      ring
    have hlog : Real.log ((1 : ℝ) / 4) = - Real.log 4 := by
      rw [one_div, Real.log_inv]
    unfold entropyOf
    rw [entropyLoop_closed, hall 0 (by omega), hall 1 (by omega), hall 2 (by omega),
      hall 3 (by omega), hreal, hp, hlog]
    norm_num
    ring

/-- Witness of C11, amended: two `A` observations give entropy 0, and one observation of each
of `A`, `C`, `G`, `T` gives entropy `ln 4`. -/
theorem entropy_zero_and_maximal_witness :
    (∃ t, CreatePileupTuple twoA = .ok t ∧ twoA.PileupAlignments ≠ [] ∧
      entropyOf twoA t.ntData = 0) ∧
    (∃ t, CreatePileupTuple oneOfEach = .ok t ∧ oneOfEach.PileupAlignments ≠ [] ∧
      entropyOf oneOfEach t.ntData = Real.log 4) :=
  ⟨⟨_, rfl, List.cons_ne_nil _ _,
      (entropy_zero_and_maximal twoA _ rfl (List.cons_ne_nil _ _)).1 0 (by decide) (by decide)
        (Or.inl (by decide))⟩,
    ⟨_, rfl, List.cons_ne_nil _ _,
      (entropy_zero_and_maximal oneOfEach _ rfl (List.cons_ne_nil _ _)).2 1 (by decide)
        (by decide) (by decide)⟩⟩

/-- Witness of C19 on the scripted file `a.bam`: `Jump("chr1", 100)` and the plain pull loop
give the same outcome and state; the queue then starts with the record at the 1-based position
100, above the 0-based target 99. -/
theorem jump_is_pull_until_nonempty_witness :
    Pileup.Jump (scripted files) afterOpenA "chr1" 100 =
      Pileup.JumpByPulling (scripted files) afterOpenA "chr1" 100 ∧
    ∃ front rest, afterJump100.m_PileupQueue.Pileups = front :: rest ∧
      front.key = (0, 100) ∧ 100 - 1 < front.position :=
  ⟨(jump_is_pull_until_nonempty (scripted files) afterOpenA "chr1" 100).1, _, _, rfl,
    by decide,
    ((jump_is_pull_until_nonempty (scripted files) afterOpenA "chr1" 100).2
      afterJump100 _ _ rfl rfl).1⟩

end Pybam
